import Mathlib

/-!
Validator combinators, diagnostic adapter and JSON diff suppression.

A shallow embedding of
* `helper/validation/meta.go` (`NoZeroValues`, `All`, `Any`, `ToDiagFunc`),
* `helper/structure/suppress_json_diff.go` (`SuppressJsonDiff`),
* `reinternal/providers/provider.go` (`Schema`).

Modelling conventions.
* A Go panic is a `Fault`; a function that may panic returns `Except Fault _`.
* A Go slice of strings or of errors is a `List`; a nil slice and an empty
  slice are both `[]` (the code only ever takes their length, ranges over them
  or appends to them).
* A Go `error` is the nil error or an error given by the text its `Error()`
  method returns; calling `Error()` on the nil error panics.
* The definitions come first, the theorems follow them.
-/

set_option autoImplicit false

deriving instance DecidableEq for Except

namespace Validation

/-! ## Data model -/

/-- A Go panic. `panicked` is an explicit `panic(...)` call of the program,
`runtimeError` is a panic raised by the Go runtime or by package `reflect`. -/
inductive Fault where
  | panicked (msg : String)
  | runtimeError (msg : String)
  deriving DecidableEq, Repr

/-- A Go `error` value: the nil error, or an error identified with its
message text. -/
inductive GoError where
  | nil
  | ofText (msg : String)
  deriving DecidableEq, Repr

/-- The call of the method `Error()` on a Go `error`: the message text, and a
nil pointer dereference on the nil error. -/
def GoError.Error : GoError → Except Fault String
  | .nil => .error (.runtimeError "runtime error: invalid memory address or nil pointer dereference")
  | .ofText msg => .ok msg

/-- The function `fmt.Errorf` once its format has been expanded to `msg`; its
result is never the nil error. -/
def Errorf (msg : String) : GoError := .ofText msg

/-- A Go `float64` by its IEEE-754 fields: sign bit, 11-bit biased exponent,
52-bit fraction. -/
structure Float64 where
  sign : Bool
  exponent : Nat
  fraction : Nat
  deriving DecidableEq, Repr

/-- Positive zero, the zero value of `float64`. -/
def Float64.zero : Float64 := ⟨false, 0, 0⟩

/-- Whether the float is a NaN: exponent all ones and a non-zero fraction. -/
def Float64.isNaN (f : Float64) : Bool :=
  f.exponent % 2048 == 2047 && f.fraction % 2 ^ 52 != 0

/-- Whether the float is `+0` or `-0`. -/
def Float64.isZero (f : Float64) : Bool :=
  f.exponent % 2048 == 0 && f.fraction % 2 ^ 52 == 0

/-- Go `==` on `float64`: a NaN differs from everything, the two zeros are
equal, any other two floats are equal when their fields are. -/
def Float64.eq (a b : Float64) : Bool :=
  if a.isNaN || b.isNaN then false
  else if a.isZero && b.isZero then true
  else a.sign == b.sign && a.exponent % 2048 == b.exponent % 2048
    && a.fraction % 2 ^ 52 == b.fraction % 2 ^ 52

/-- The members of `reflect.Kind` that the dynamic type of a value can have
(`Invalid` and `Interface` are the kind of no dynamic type). -/
inductive Kind where
  | String
  | Int
  | Float64
  | Bool
  | Slice
  | Map
  | Int8
  | Int16
  | Int32
  | Int64
  | Uint
  | Uint8
  | Uint16
  | Uint32
  | Uint64
  | Uintptr
  | Float32
  | Complex64
  | Complex128
  | Array
  | Chan
  | Func
  | Pointer
  | Struct
  | UnsafePointer
  deriving DecidableEq, Repr

/-- The kinds other than string, int and float64. -/
inductive OtherKind where
  | Bool
  | Slice
  | Map
  | Int8
  | Int16
  | Int32
  | Int64
  | Uint
  | Uint8
  | Uint16
  | Uint32
  | Uint64
  | Uintptr
  | Float32
  | Complex64
  | Complex128
  | Array
  | Chan
  | Func
  | Pointer
  | Struct
  | UnsafePointer
  deriving DecidableEq, Repr

/-- A kind other than string, int and float64 as a member of `reflect.Kind`. -/
def OtherKind.toKind : OtherKind → Kind
  | .Bool => .Bool
  | .Slice => .Slice
  | .Map => .Map
  | .Int8 => .Int8
  | .Int16 => .Int16
  | .Int32 => .Int32
  | .Int64 => .Int64
  | .Uint => .Uint
  | .Uint8 => .Uint8
  | .Uint16 => .Uint16
  | .Uint32 => .Uint32
  | .Uint64 => .Uint64
  | .Uintptr => .Uintptr
  | .Float32 => .Float32
  | .Complex64 => .Complex64
  | .Complex128 => .Complex128
  | .Array => .Array
  | .Chan => .Chan
  | .Func => .Func
  | .Pointer => .Pointer
  | .Struct => .Struct
  | .UnsafePointer => .UnsafePointer

/-- A Go type of a kind other than string, int and float64, such as `int64`,
`float32`, `*schema.Set` or a struct type: the text that `%T` prints for it,
its kind, and for an array or struct type whether all its parts are
comparable. -/
structure OtherType where
  name : String
  kind : OtherKind
  comparableParts : Bool
  deriving DecidableEq, Repr

/-- Whether Go's `==` is defined on the values of the type: never on a slice,
a map or a function, on an array or a struct when it is on all their parts,
and on every other kind. -/
def OtherType.comparable (t : OtherType) : Bool :=
  match t.kind with
  | .Slice => false
  | .Map => false
  | .Func => false
  | .Array => t.comparableParts
  | .Struct => t.comparableParts
  | _ => true

/-- The dynamic types a value handed to a validator can have: the six types
that the schema itself uses, and any other type of a kind other than string,
int and float64. A named type whose kind is string, int or float64 behaves
as `string`, `int` or `float64` and is not told apart from it. -/
inductive GoType where
  | string
  | int
  | float64
  | bool
  | sliceOfInterface
  | mapStringInterface
  | other (t : OtherType)
  deriving DecidableEq, Repr

/-- The method `Kind()` of `reflect.Type`. -/
def GoType.Kind : GoType → Kind
  | .string => .String
  | .int => .Int
  | .float64 => .Float64
  | .bool => .Bool
  | .sliceOfInterface => .Slice
  | .mapStringInterface => .Map
  | .other t => t.kind.toKind

/-- The verb `%T` of package `fmt` on a type. -/
def GoType.fmtT : GoType → String
  | .string => "string"
  | .int => "int"
  | .float64 => "float64"
  | .bool => "bool"
  | .sliceOfInterface => "[]interface \x7b\x7d"
  | .mapStringInterface => "map[string]interface \x7b\x7d"
  | .other t => t.name

/-- Whether Go's `==` is defined on values of the type: it is not on slices
and maps. -/
def GoType.comparable : GoType → Bool
  | .sliceOfInterface => false
  | .mapStringInterface => false
  | .other t => t.comparable
  | _ => true

/-- A Go `interface{}` value as handed to a validator. `slice none` and
`map none` are the nil slice and the nil map, `nil` is the nil interface.
A value of another type is given by its type and a code that tells it apart
under `==`: `some 0` is the zero value of the type (and what equals it),
`some c` another value, and `none` a value that `==` holds for with no value,
itself included (a NaN). -/
inductive Value where
  | string (s : String)
  | int (n : Int)
  | float64 (f : Float64)
  | bool (b : Bool)
  | slice (xs : Option (List Value))
  | map (kvs : Option (List (String × Value)))
  | nil
  | other (t : OtherType) (code : Option Nat)

/-- The function `reflect.TypeOf`; `none` is the nil `reflect.Type`. -/
def TypeOf : Value → Option GoType
  | .string _ => some .string
  | .int _ => some .int
  | .float64 _ => some .float64
  | .bool _ => some .bool
  | .slice _ => some .sliceOfInterface
  | .map _ => some .mapStringInterface
  | .nil => none
  | .other t _ => some (.other t)

/-- The function `reflect.Zero` followed by `Interface()`: the zero value of a
type. -/
def Zero : GoType → Value
  | .string => .string ""
  | .int => .int 0
  | .float64 => .float64 Float64.zero
  | .bool => .bool false
  | .sliceOfInterface => .slice none
  | .mapStringInterface => .map none
  | .other t => .other t (some 0)

/-- Go `==` on the codes of two values of one comparable type. -/
def codeEq : Option Nat → Option Nat → Bool
  | some a, some b => a == b
  | _, _ => false

/-- Go `==` on two interface values of the same dynamic type `t`: a run-time
panic when `t` is not comparable. Values of different dynamic types are
unequal. -/
def interfaceEq : Value → Value → Except Fault Bool
  | .string a, .string b => .ok (a == b)
  | .int a, .int b => .ok (a == b)
  | .float64 a, .float64 b => .ok (a.eq b)
  | .bool a, .bool b => .ok (a == b)
  | .slice _, .slice _ =>
    .error (.runtimeError "runtime error: comparing uncomparable type []interface \x7b\x7d")
  | .map _, .map _ =>
    .error (.runtimeError "runtime error: comparing uncomparable type map[string]interface \x7b\x7d")
  | .nil, .nil => .ok true
  | .other t a, .other u b =>
    if t = u then
      if t.comparable then .ok (codeEq a b)
      else .error (.runtimeError ("runtime error: comparing uncomparable type " ++ t.name))
    else .ok false
  | _, _ => .ok false

/-- The outcome of a validator call: a fault, or warnings and errors. -/
abbrev ValidateResult := Except Fault (List String × List GoError)

/-- The type `schema.SchemaValidateFunc`: from a value and a key to warnings
and errors; the call may panic. -/
abbrev SchemaValidateFunc := Value → String → ValidateResult

/-- The warnings of a validator outcome (none when it faulted). -/
def warningsOf : ValidateResult → List String
  | .ok (ws, _) => ws
  | .error _ => []

/-- The errors of a validator outcome (none when it faulted). -/
def errorsOf : ValidateResult → List GoError
  | .ok (_, es) => es
  | .error _ => []

/-! ## `NoZeroValues` -/

/-- The verb `%v` of package `fmt` on a `float64` that is a zero. -/
def Float64.fmtVZero (f : Float64) : String :=
  if f.sign then "-0" else "0"

/-- The function `NoZeroValues`. The value is compared with the zero value of
its dynamic type; when they are equal the kind of the type selects the error.
The verb `%v` prints a string as itself and an `int` in decimal; on a
`float64` it is only reached for a zero. The nil interface has no type:
`reflect.ValueOf(nil).Interface()` panics. -/
def NoZeroValues : SchemaValidateFunc := fun i k =>
  match TypeOf i with
  | none =>
    .error (.runtimeError "reflect: call of reflect.Value.Interface on zero Value")
  | some t =>
    match interfaceEq i (Zero t) with
    | .error f => .error f
    | .ok false => .ok ([], [])
    | .ok true =>
      match t.Kind, i with
      | .String, .string s =>
        .ok ([], [Errorf (k ++ " must not be empty, got " ++ s)])
      | .Int, .int n =>
        .ok ([], [Errorf (k ++ " must not be zero, got " ++ toString n)])
      | .Float64, .float64 f =>
        .ok ([], [Errorf (k ++ " must not be zero, got " ++ f.fmtVZero)])
      | _, _ =>
        .error (.panicked ("can't use NoZeroValues with " ++ t.fmtT ++ " attribute " ++ k))

/-! ## `All` and `Any` -/

/-- The loop of `All`: each validator in turn is called on `(i, k)` and its
warnings and errors are appended to the accumulators. -/
def All.loop (i : Value) (k : String) :
    List SchemaValidateFunc → List String → List GoError → ValidateResult
  | [], allWarnings, allErrors => .ok (allWarnings, allErrors)
  | validator :: rest, allWarnings, allErrors =>
    match validator i k with
    | .error f => .error f
    | .ok (validatorWarnings, validatorErrors) =>
      All.loop i k rest (allWarnings ++ validatorWarnings) (allErrors ++ validatorErrors)

/-- The function `All`. -/
def All (validators : List SchemaValidateFunc) : SchemaValidateFunc :=
  fun i k => All.loop i k validators [] []

/-- The loop of `Any`: as in `All`, but the first validator that returns no
warning and no error ends the loop with an empty outcome. -/
def Any.loop (i : Value) (k : String) :
    List SchemaValidateFunc → List String → List GoError → ValidateResult
  | [], allWarnings, allErrors => .ok (allWarnings, allErrors)
  | validator :: rest, allWarnings, allErrors =>
    match validator i k with
    | .error f => .error f
    | .ok (validatorWarnings, validatorErrors) =>
      if validatorWarnings.length == 0 && validatorErrors.length == 0 then
        .ok ([], [])
      else
        Any.loop i k rest (allWarnings ++ validatorWarnings) (allErrors ++ validatorErrors)

/-- The function `Any`. -/
def Any (validators : List SchemaValidateFunc) : SchemaValidateFunc :=
  fun i k => Any.loop i k validators [] []

/-! ## `ToDiagFunc` -/

/-- Modelled from the spec: the key of an index step of a path (package `cty`
is not part of the sources); a number or a string. -/
inductive IndexKey where
  | number (n : Int)
  | string (s : String)
  deriving DecidableEq, Repr

/-- Modelled from the spec: a step of an attribute path (the type
`cty.PathStep`, not part of the sources): an attribute name or an index. -/
inductive PathStep where
  | GetAttrStep (Name : String)
  | IndexStep (Key : IndexKey)
  deriving DecidableEq, Repr

/-- The type `cty.Path`: a sequence of steps. -/
abbrev Path := List PathStep

/-- Modelled from the spec: the severity of a diagnostic (package `diag` is
not part of the sources). -/
inductive Severity where
  | Error
  | Warning
  deriving DecidableEq, Repr

/-- Modelled from the spec: a diagnostic (the type `diag.Diagnostic`, not part
of the sources): severity, summary and attribute path. -/
structure Diagnostic where
  Severity : Severity
  Summary : String
  AttributePath : Path
  deriving DecidableEq, Repr

/-- The first loop of `ToDiagFunc`: one `Warning` diagnostic is appended per
warning. -/
def ToDiagFunc.warningLoop (p : Path) : List String → List Diagnostic → List Diagnostic
  | [], diags => diags
  | w :: ws, diags => ToDiagFunc.warningLoop p ws (diags ++ [⟨.Warning, w, p⟩])

/-- The second loop of `ToDiagFunc`: one `Error` diagnostic is appended per
error, with the text that the call `e.Error()` returns; that call panics on a
nil entry. -/
def ToDiagFunc.errorLoop (p : Path) :
    List GoError → List Diagnostic → Except Fault (List Diagnostic)
  | [], diags => .ok diags
  | e :: es, diags =>
    match e.Error with
    | .error f => .error f
    | .ok summary => ToDiagFunc.errorLoop p es (diags ++ [⟨.Error, summary, p⟩])

/-- The function `ToDiagFunc`. Indexing an empty path at `len(p)-1` and
asserting a step that is no `cty.GetAttrStep` to that type both panic, before
the validator is called. -/
def ToDiagFunc (validator : SchemaValidateFunc) : Value → Path → Except Fault (List Diagnostic) :=
  fun i p =>
    match p.getLast? with
    | none => .error (.runtimeError "runtime error: index out of range [-1]")
    | some (.IndexStep _) =>
      .error (.runtimeError
        "interface conversion: cty.PathStep is cty.IndexStep, not cty.GetAttrStep")
    | some (.GetAttrStep Name) =>
      match validator i Name with
      | .error f => .error f
      | .ok (ws, es) =>
        ToDiagFunc.errorLoop p es (ToDiagFunc.warningLoop p ws [])

end Validation

namespace Structure

open Validation (GoError)

/-! ## `SuppressJsonDiff` -/

/-- Modelled from the spec: the decoded form of a JSON document (the decoder
`ExpandJsonFromString` is not part of the sources): a scalar, a sequence, or a
mapping from keys to values. A number is the rational value of the finite
`float64` it is decoded to, so equality of numbers is Go's `==` on them. -/
inductive JsonValue where
  | null
  | bool (b : Bool)
  | number (q : ℚ)
  | string (s : String)
  | array (xs : List JsonValue)
  | object (kvs : List (String × JsonValue))

/-- The entries of a Go map as a list of key and value pairs. -/
abbrev Entries := List (String × JsonValue)

/-- Map lookup (`MapIndex`): the value stored under a key, if any. -/
def mapIndex (k : String) : Entries → Option JsonValue
  | [] => none
  | (k', v) :: rest => if k' = k then some v else mapIndex k rest

mutual
/-- Whether no mapping inside the value lists a key twice. -/
def JsonValue.uniqueKeys : JsonValue → Bool
  | .array xs => uniqueKeysSlice xs
  | .object kvs => uniqueKeysMap kvs
  | _ => true
/-- Whether no mapping inside the elements of a sequence lists a key twice. -/
def uniqueKeysSlice : List JsonValue → Bool
  | [] => true
  | x :: xs => x.uniqueKeys && uniqueKeysSlice xs
/-- Whether the entries list no key twice, at this level and below. -/
def uniqueKeysMap : Entries → Bool
  | [] => true
  | (k, v) :: rest => (mapIndex k rest).isNone && v.uniqueKeys && uniqueKeysMap rest
end

/-- A Go `map[string]interface{}` holding decoded JSON: entries with unique
keys. -/
def GoMap := { kvs : Entries // uniqueKeysMap kvs = true }

mutual
/-- The function `deepValueEqual` of package `reflect` on decoded JSON values:
equal kinds and equal contents; sequences are compared position by position,
mappings by length and then key by key through a lookup in the second. -/
def deepValueEqual : JsonValue → JsonValue → Bool
  | .null, .null => true
  | .bool a, .bool b => a == b
  | .number a, .number b => a == b
  | .string a, .string b => a == b
  | .array xs, .array ys => deepEqualSlice xs ys
  | .object m1, .object m2 => m1.length == m2.length && deepEqualMap m1 m2
  | _, _ => false
/-- Position by position comparison of two sequences of equal length. -/
def deepEqualSlice : List JsonValue → List JsonValue → Bool
  | [], [] => true
  | x :: xs, y :: ys => deepValueEqual x y && deepEqualSlice xs ys
  | _, _ => false
/-- Every entry of the first mapping has a deeply equal value under the same
key in the second. -/
def deepEqualMap : Entries → Entries → Bool
  | [], _ => true
  | (k, v1) :: rest, m2 =>
    (match mapIndex k m2 with
     | some v2 => deepValueEqual v1 v2
     | none => false) && deepEqualMap rest m2
end

/-- The function `reflect.DeepEqual` on two values of type
`map[string]interface{}`; `none` is the nil map, which equals only the nil
map. -/
def DeepEqual : Option GoMap → Option GoMap → Bool
  | none, none => true
  | some m1, some m2 => m1.val.length == m2.val.length && deepEqualMap m1.val m2.val
  | _, _ => false

/-- The function `SuppressJsonDiff`. The decoder `ExpandJsonFromString` is not
part of the sources and is a parameter: it returns an error or a map. The key
`k` and the resource data `d` are not used. -/
def SuppressJsonDiff {ResourceData : Type}
    (ExpandJsonFromString : String → Except GoError (Option GoMap))
    (k old new : String) (d : ResourceData) : Bool :=
  match ExpandJsonFromString old with
  | .error _ => false
  | .ok oldMap =>
    match ExpandJsonFromString new with
    | .error _ => false
    | .ok newMap => DeepEqual oldMap newMap

/-- Following the spec, for comparison with `deepValueEqual`: deep structural
equality of two decoded values. Scalars are equal when they are of the same
kind and hold the same value; sequences when they have the same length and
equal elements at each position; mappings when they have the same keys and
equal values under each key, whatever the order of their entries. -/
inductive StructurallyEqual : JsonValue → JsonValue → Prop
  | null : StructurallyEqual .null .null
  | bool (b : Bool) : StructurallyEqual (.bool b) (.bool b)
  | number (q : ℚ) : StructurallyEqual (.number q) (.number q)
  | string (s : String) : StructurallyEqual (.string s) (.string s)
  | array (xs ys : List JsonValue) :
      xs.length = ys.length →
      (∀ (i : Nat) (x y : JsonValue), xs[i]? = some x → ys[i]? = some y →
        StructurallyEqual x y) →
      StructurallyEqual (.array xs) (.array ys)
  | object (m1 m2 : Entries) :
      (∀ k : String, (mapIndex k m1).isSome = (mapIndex k m2).isSome) →
      (∀ (k : String) (v1 v2 : JsonValue), mapIndex k m1 = some v1 → mapIndex k m2 = some v2 →
        StructurallyEqual v1 v2) →
      StructurallyEqual (.object m1) (.object m2)

/-- The decoded map as a value: the nil map, which the text `null` decodes
to, is the null value. -/
def decodedTree : Option GoMap → JsonValue
  | none => .null
  | some m => .object m.val

end Structure

namespace Providers

/-! ## `Schema` -/

/-- A Go `int64`: an integer from `-2^63` up to `2^63 - 1`. -/
def Int64 := { n : Int // -2 ^ 63 ≤ n ∧ n < 2 ^ 63 }

/-- The struct `Schema`: a version and a pointer to a block. The type
`configschema.Block` is not part of the sources and is a parameter; `none` is
the nil pointer. -/
structure Schema (ConfigschemaBlock : Type) where
  Version : Int64
  Block : Option ConfigschemaBlock

/-- The assignment `s.Version = v` to a variable `s` of type `Schema`; the
result is the value that the variable holds afterwards. The field is
exported (provider.go:10), so Go allows the assignment wherever a `Schema`
variable is held. -/
def Schema.assignVersion {ConfigschemaBlock : Type} (s : Schema ConfigschemaBlock)
    (v : Int64) : Schema ConfigschemaBlock :=
  { s with Version := v }

/-- The assignment `s.Block = b` to a variable `s` of type `Schema`; the
field is exported (provider.go:11). -/
def Schema.assignBlock {ConfigschemaBlock : Type} (s : Schema ConfigschemaBlock)
    (b : Option ConfigschemaBlock) : Schema ConfigschemaBlock :=
  { s with Block := b }

end Providers

/-! ## Example inputs -/

namespace Example

open Validation Structure

/-- A validator that reports one warning and one error on every input. -/
def deprecated : SchemaValidateFunc :=
  fun _ k => .ok ([k ++ " is deprecated"], [Errorf (k ++ " is not supported")])

/-- A validator that reports two warnings and one error on every input. -/
def noisy : SchemaValidateFunc :=
  fun _ k => .ok ([k ++ ": first", k ++ ": second"], [Errorf (k ++ ": failed")])

/-- A decoder that knows three documents and rejects every other text. -/
def decoder (text : String) : Except GoError (Option GoMap) :=
  if text = "null" then .ok none
  else if text = "\x7b\x7d" then .ok (some ⟨[], rfl⟩)
  else if text = "\x7b\"a\":1\x7d" then .ok (some ⟨[("a", .number 1)], rfl⟩)
  else .error (Errorf "invalid character")

/-- The type `int64`. -/
def typeInt64 : OtherType := ⟨"int64", .Int64, true⟩

/-- The type `float32`. -/
def typeFloat32 : OtherType := ⟨"float32", .Float32, true⟩

/-- The type `*schema.Set`, a pointer. -/
def typeSetPointer : OtherType := ⟨"*schema.Set", .Pointer, true⟩

/-- The type `[]string`, a slice. -/
def typeStringSlice : OtherType := ⟨"[]string", .Slice, false⟩

/-- The version 2. -/
def versionTwo : Providers.Int64 := ⟨2, by norm_num⟩

/-- The version 3. -/
def versionThree : Providers.Int64 := ⟨3, by norm_num⟩

/-- The version -1. -/
def versionMinusOne : Providers.Int64 := ⟨-1, by norm_num⟩

/-- A validator whose error list holds one entry, the nil error. -/
def nilError : SchemaValidateFunc :=
  fun _ _ => .ok ([], [.nil])

/-- A validator that reports nothing on every input. -/
def pass : SchemaValidateFunc :=
  fun _ _ => .ok ([], [])

/-- A validator that reports one warning and no error on every input. -/
def warnOnly : SchemaValidateFunc :=
  fun _ k => .ok ([k ++ " is deprecated"], [])

/-- A validator that reports one error and no warning on every input. -/
def errorOnly : SchemaValidateFunc :=
  fun _ k => .ok ([], [Errorf (k ++ " is not supported")])

/-- The mapping with `a` set to 1 and then `b` set to 2. -/
def mapAB : GoMap := ⟨[("a", .number 1), ("b", .number 2)], rfl⟩

/-- The mapping with `b` set to 2 and then `a` set to 1. -/
def mapBA : GoMap := ⟨[("b", .number 2), ("a", .number 1)], rfl⟩

/-- The mapping with `x` set to the sequence 1, 2. -/
def mapX12 : GoMap := ⟨[("x", .array [.number 1, .number 2])], rfl⟩

/-- The mapping with `x` set to the sequence 2, 1. -/
def mapX21 : GoMap := ⟨[("x", .array [.number 2, .number 1])], rfl⟩

/-- A decoder into a map that knows four objects and rejects every other
text, a text whose top level is a sequence among them. -/
def objectDecoder (text : String) : Except GoError (Option GoMap) :=
  if text = "\x7b\"a\":1,\"b\":2\x7d" then .ok (some mapAB)
  else if text = "\x7b\"b\":2,\"a\":1\x7d" then .ok (some mapBA)
  else if text = "\x7b\"x\":[1,2]\x7d" then .ok (some mapX12)
  else if text = "\x7b\"x\":[2,1]\x7d" then .ok (some mapX21)
  else .error (Errorf "json: cannot unmarshal into Go value of type map[string]interface \x7b\x7d")

end Example

/-! # Theorems -/

namespace Validation

/-! ## `All` -/

/-- The loop of `All`, started from any accumulators, returns the accumulators
followed by the warnings and the errors of the validators, when none faults. -/
theorem All.loop_ok (i : Value) (k : String) (V : List SchemaValidateFunc) :
    ∀ (aw : List String) (ae : List GoError), (∀ v ∈ V, ∃ r, v i k = .ok r) →
      All.loop i k V aw ae =
        .ok (aw ++ (V.map fun v => warningsOf (v i k)).flatten,
             ae ++ (V.map fun v => errorsOf (v i k)).flatten) := by
  induction V with
  | nil => intro aw ae _; simp [All.loop]
  | cons v rest ih =>
    intro aw ae h
    obtain ⟨⟨ws, es⟩, hv⟩ := h v (List.mem_cons_self _ _)
    have hrest : ∀ u ∈ rest, ∃ r, u i k = .ok r :=
      fun u hu => h u (List.mem_cons_of_mem _ hu)
    simp [All.loop, hv, ih _ _ hrest, warningsOf, errorsOf, List.append_assoc]

/-- C1: when no validator of `V` faults on `(i, k)`, `All V` returns the
warnings of the validators concatenated in argument order and their errors
concatenated in argument order; with no validator at all it returns no
warning and no error. -/
theorem All_concat (V : List SchemaValidateFunc) (i : Value) (k : String)
    (h : ∀ v ∈ V, ∃ r, v i k = .ok r) :
    All V i k =
        .ok ((V.map fun v => warningsOf (v i k)).flatten,
             (V.map fun v => errorsOf (v i k)).flatten)
      ∧ All [] i k = .ok ([], []) := by
  refine ⟨?_, rfl⟩
  simpa [All] using All.loop_ok i k V [] [] h

/-! ## `Any` -/

/-- The loop of `Any` returns the empty outcome as soon as a validator passes,
whatever was accumulated, when no validator before it faults. -/
theorem Any.loop_pass (i : Value) (k : String) (v : SchemaValidateFunc)
    (post : List SchemaValidateFunc) (hv : v i k = .ok ([], [])) (pre : List SchemaValidateFunc) :
    ∀ (aw : List String) (ae : List GoError), (∀ u ∈ pre, ∃ r, u i k = .ok r) →
      Any.loop i k (pre ++ v :: post) aw ae = .ok ([], []) := by
  induction pre with
  | nil => intro aw ae _; simp [Any.loop, hv]
  | cons u rest ih =>
    intro aw ae h
    obtain ⟨⟨ws, es⟩, hu⟩ := h u (List.mem_cons_self _ _)
    have hrest : ∀ w ∈ rest, ∃ r, w i k = .ok r :=
      fun w hw => h w (List.mem_cons_of_mem _ hw)
    simp only [List.cons_append, Any.loop, hu]
    split
    · rfl
    · exact ih _ _ hrest

/-- The loop of `Any` behaves as the loop of `All` when every validator
reports at least one warning or error. -/
theorem Any.loop_fail (i : Value) (k : String) (V : List SchemaValidateFunc) :
    ∀ (aw : List String) (ae : List GoError),
      (∀ v ∈ V, ∃ ws es, v i k = .ok (ws, es) ∧ (ws ≠ [] ∨ es ≠ [])) →
      Any.loop i k V aw ae =
        .ok (aw ++ (V.map fun v => warningsOf (v i k)).flatten,
             ae ++ (V.map fun v => errorsOf (v i k)).flatten) := by
  induction V with
  | nil => intro aw ae _; simp [Any.loop]
  | cons v rest ih =>
    intro aw ae h
    obtain ⟨ws, es, hv, hne⟩ := h v (List.mem_cons_self _ _)
    have hrest : ∀ u ∈ rest, ∃ ws es, u i k = .ok (ws, es) ∧ (ws ≠ [] ∨ es ≠ []) :=
      fun u hu => h u (List.mem_cons_of_mem _ hu)
    have hcond : (ws.length == 0 && es.length == 0) = false := by
      rcases hne with hw | he
      · cases ws with
        | nil => exact absurd rfl hw
        | cons a l => simp
      · cases es with
        | nil => exact absurd rfl he
        | cons a l => simp
    simp [Any.loop, hv, hcond, ih _ _ hrest, warningsOf, errorsOf, List.append_assoc]

/-- C2: when some validator of `V` returns no warning and no error on
`(i, k)` and no validator before it faults, `Any V` returns no warning and no
error: what the validators before it reported is dropped. -/
theorem Any_pass (pre post : List SchemaValidateFunc) (v : SchemaValidateFunc)
    (i : Value) (k : String)
    (hpre : ∀ u ∈ pre, ∃ r, u i k = .ok r) (hv : v i k = .ok ([], [])) :
    Any (pre ++ v :: post) i k = .ok ([], []) := by
  simpa [Any] using Any.loop_pass i k v post hv pre [] [] hpre

/-- C3: when every validator of `V` returns at least one warning or at least
one error on `(i, k)`, `Any V` returns the warnings of all validators
concatenated in argument order and their errors concatenated in argument
order; with no validator at all it returns no warning and no error. -/
theorem Any_fail_concat (V : List SchemaValidateFunc) (i : Value) (k : String)
    (h : ∀ v ∈ V, ∃ ws es, v i k = .ok (ws, es) ∧ (ws ≠ [] ∨ es ≠ [])) :
    Any V i k =
        .ok ((V.map fun v => warningsOf (v i k)).flatten,
             (V.map fun v => errorsOf (v i k)).flatten)
      ∧ Any [] i k = .ok ([], []) := by
  refine ⟨?_, rfl⟩
  simpa [Any] using Any.loop_fail i k V [] [] h

open Example

/-- A witness of `All_concat`: `NoZeroValues` followed by a validator that
always reports, on the empty string. -/
theorem All_concat_witness :
    (∀ v ∈ [NoZeroValues, deprecated], ∃ r, v (.string "") "name" = .ok r)
      ∧ All [NoZeroValues, deprecated] (.string "") "name" =
          .ok (["name is deprecated"],
               [Errorf "name must not be empty, got ", Errorf "name is not supported"]) :=
  have h : ∀ v ∈ [NoZeroValues, deprecated], ∃ r, v (.string "") "name" = .ok r := by
    intro v hv
    simp only [List.mem_cons, List.mem_singleton, List.not_mem_nil, or_false] at hv
    rcases hv with rfl | rfl
    · exact ⟨_, rfl⟩
    · exact ⟨_, rfl⟩
  ⟨h, (All_concat [NoZeroValues, deprecated] (.string "") "name" h).1.trans (by decide)⟩

/-- A witness of `Any_pass`: `NoZeroValues` passes on a non-empty string after
a validator that reported a warning and an error. -/
theorem Any_pass_witness :
    (∀ u ∈ [deprecated], ∃ r, u (.string "x") "name" = .ok r)
      ∧ NoZeroValues (.string "x") "name" = .ok ([], [])
      ∧ Any ([deprecated] ++ NoZeroValues :: [noisy]) (.string "x") "name" = .ok ([], []) :=
  have h : ∀ u ∈ [deprecated], ∃ r, u (.string "x") "name" = .ok r := by
    intro u hu
    simp only [List.mem_singleton] at hu
    subst hu
    exact ⟨_, rfl⟩
  ⟨h, by decide, Any_pass [deprecated] [noisy] NoZeroValues (.string "x") "name" h (by decide)⟩

/-- A witness of `Any_fail_concat`: both validators report on the empty
string. -/
theorem Any_fail_concat_witness :
    (∀ v ∈ [NoZeroValues, deprecated],
        ∃ ws es, v (.string "") "name" = .ok (ws, es) ∧ (ws ≠ [] ∨ es ≠ []))
      ∧ Any [NoZeroValues, deprecated] (.string "") "name" =
          .ok (["name is deprecated"],
               [Errorf "name must not be empty, got ", Errorf "name is not supported"]) :=
  have h : ∀ v ∈ [NoZeroValues, deprecated],
      ∃ ws es, v (.string "") "name" = .ok (ws, es) ∧ (ws ≠ [] ∨ es ≠ []) := by
    intro v hv
    simp only [List.mem_cons, List.mem_singleton, List.not_mem_nil, or_false] at hv
    rcases hv with rfl | rfl
    · exact ⟨_, _, rfl, Or.inr (by decide)⟩
    · exact ⟨_, _, rfl, Or.inl (by decide)⟩
  ⟨h, (Any_fail_concat [NoZeroValues, deprecated] (.string "") "name" h).1.trans (by decide)⟩

/-! ## `NoZeroValues` -/

/-- A float that is no zero differs from positive zero under Go's `==`. -/
theorem Float64.eq_zero_of_not_isZero (f : Float64) (h : f.isZero = false) :
    f.eq Float64.zero = false := by
  have h1 : ¬ (f.exponent % 2048 = 0 ∧ f.fraction % 2 ^ 52 = 0) := by
    simpa [Float64.isZero] using h
  simp only [Float64.eq, Float64.isNaN, Float64.isZero, Float64.zero]
  simp only [Nat.zero_mod]
  split
  · rfl
  · split
    · simp_all
    · simp only [Bool.and_eq_false_iff, beq_eq_false_iff_ne, ne_eq]
      by_cases he : f.exponent % 2048 = 0
      · exact Or.inr (fun hfz => h1 ⟨he, hfz⟩)
      · exact Or.inl (Or.inr he)

/-- A float that is a zero equals positive zero under Go's `==`. -/
theorem Float64.eq_zero_of_isZero (f : Float64) (h : f.isZero = true) :
    f.eq Float64.zero = true := by
  have h1 : f.exponent % 2048 = 0 ∧ f.fraction % 2 ^ 52 = 0 := by
    simpa [Float64.isZero] using h
  have hn : f.isNaN = false := by simp [Float64.isNaN, h1.1]
  have hz : Float64.zero.isNaN = false := by decide
  have hzz : Float64.zero.isZero = true := by decide
  simp [Float64.eq, hn, hz, h, hzz]

/-- The value of `NoZeroValues` on a string. -/
theorem NoZeroValues_string (s k : String) :
    NoZeroValues (.string s) k =
      if s = "" then .ok ([], [Errorf (k ++ " must not be empty, got " ++ s)])
      else .ok ([], []) := by
  by_cases hs : s = ""
  · subst hs; rfl
  · have hb : (s == "") = false := by simpa using hs
    simp [NoZeroValues, TypeOf, Zero, interfaceEq, hs, hb]

/-- The value of `NoZeroValues` on an `int`. -/
theorem NoZeroValues_int (n : Int) (k : String) :
    NoZeroValues (.int n) k =
      if n = 0 then .ok ([], [Errorf (k ++ " must not be zero, got " ++ toString n)])
      else .ok ([], []) := by
  by_cases hn : n = 0
  · subst hn; rfl
  · have hb : (n == 0) = false := by simpa using hn
    simp [NoZeroValues, TypeOf, Zero, interfaceEq, hn, hb]

/-- The value of `NoZeroValues` on a `float64`. -/
theorem NoZeroValues_float64 (f : Float64) (k : String) :
    NoZeroValues (.float64 f) k =
      if f.isZero = true then .ok ([], [Errorf (k ++ " must not be zero, got " ++ f.fmtVZero)])
      else .ok ([], []) := by
  cases hf : f.isZero
  · simp [NoZeroValues, TypeOf, Zero, interfaceEq, Float64.eq_zero_of_not_isZero f hf]
  · simp [NoZeroValues, TypeOf, Zero, interfaceEq, Float64.eq_zero_of_isZero f hf, GoType.Kind]

/-- The value of `NoZeroValues` on a `bool`. -/
theorem NoZeroValues_bool (b : Bool) (k : String) :
    NoZeroValues (.bool b) k =
      if b = false then .error (.panicked ("can't use NoZeroValues with bool attribute " ++ k))
      else .ok ([], []) := by
  cases b <;> rfl

/-- The value of `NoZeroValues` on a value of another type: a fault of the
comparison when the type is not comparable, the explicit panic on the zero
value, the empty outcome on any other value. -/
theorem NoZeroValues_other (t : OtherType) (code : Option Nat) (k : String) :
    NoZeroValues (.other t code) k =
      if t.comparable = true then
        if code = some 0 then
          .error (.panicked ("can't use NoZeroValues with " ++ t.name ++ " attribute " ++ k))
        else .ok ([], [])
      else .error (.runtimeError ("runtime error: comparing uncomparable type " ++ t.name)) := by
  cases hc : t.comparable with
  | false => simp [NoZeroValues, TypeOf, Zero, interfaceEq, hc]
  | true =>
    by_cases h0 : code = some 0
    · subst h0
      obtain ⟨name, kind, parts⟩ := t
      cases kind <;>
        simp [NoZeroValues, TypeOf, Zero, interfaceEq, hc, codeEq, GoType.Kind,
          OtherKind.toKind, GoType.fmtT]
    · have hne : codeEq code (some 0) = false := by
        cases code with
        | none => rfl
        | some c =>
          have : c ≠ 0 := fun hc0 => h0 (by rw [hc0])
          simpa [codeEq] using this
      simp [NoZeroValues, TypeOf, Zero, interfaceEq, hc, hne, h0]

/-- C4: for every key, `NoZeroValues` returns exactly one error and no warning
on the empty string, on the integer 0 and on a `float64` zero; it returns no
error and no warning on a non-empty string, on a non-zero integer and on a
non-zero float; and whatever it returns holds no warning. -/
theorem NoZeroValues_zero_detection (k : String) :
    (∃ e, NoZeroValues (.string "") k = .ok ([], [e]))
      ∧ (∃ e, NoZeroValues (.int 0) k = .ok ([], [e]))
      ∧ (∀ f : Float64, f.isZero = true → ∃ e, NoZeroValues (.float64 f) k = .ok ([], [e]))
      ∧ (∀ s : String, s ≠ "" → NoZeroValues (.string s) k = .ok ([], []))
      ∧ (∀ n : Int, n ≠ 0 → NoZeroValues (.int n) k = .ok ([], []))
      ∧ (∀ f : Float64, f.isZero = false → NoZeroValues (.float64 f) k = .ok ([], []))
      ∧ (∀ (i : Value) (ws : List String) (es : List GoError),
          NoZeroValues i k = .ok (ws, es) → ws = []) := by
  refine ⟨⟨_, rfl⟩, ⟨_, rfl⟩, ?_, ?_, ?_, ?_, ?_⟩
  · intro f hf
    exact ⟨_, by rw [NoZeroValues_float64, if_pos hf]⟩
  · intro s hs
    rw [NoZeroValues_string, if_neg hs]
  · intro n hn
    rw [NoZeroValues_int, if_neg hn]
  · intro f hf
    rw [NoZeroValues_float64, if_neg (by simp [hf])]
  · intro i ws es h
    cases i with
    | string s =>
      rw [NoZeroValues_string] at h
      split at h <;> (injection h with h; injection h with h1 _; exact h1.symm)
    | int n =>
      rw [NoZeroValues_int] at h
      split at h <;> (injection h with h; injection h with h1 _; exact h1.symm)
    | float64 f =>
      rw [NoZeroValues_float64] at h
      split at h <;> (injection h with h; injection h with h1 _; exact h1.symm)
    | bool b =>
      rw [NoZeroValues_bool] at h
      split at h
      · cases h
      · injection h with h; injection h with h1 _; exact h1.symm
    | slice xs => cases h
    | map kvs => cases h
    | nil => cases h
    | other t code =>
      rw [NoZeroValues_other] at h
      split at h
      · split at h
        · exact Except.noConfusion h
        · injection h with h; injection h with h1 _; exact h1.symm
      · exact Except.noConfusion h

/-- A witness of `NoZeroValues_zero_detection` at the key `name`: negative
zero, the string `x`, the integer 5, the float 1 and the empty string. -/
theorem NoZeroValues_zero_detection_witness :
    (Float64.isZero ⟨true, 0, 0⟩ = true
        ∧ ∃ e, NoZeroValues (.float64 ⟨true, 0, 0⟩) "name" = .ok ([], [e]))
      ∧ ("x" ≠ "" ∧ NoZeroValues (.string "x") "name" = .ok ([], []))
      ∧ ((5 : Int) ≠ 0 ∧ NoZeroValues (.int 5) "name" = .ok ([], []))
      ∧ (Float64.isZero ⟨false, 1023, 0⟩ = false
        ∧ NoZeroValues (.float64 ⟨false, 1023, 0⟩) "name" = .ok ([], []))
      ∧ (NoZeroValues (.string "") "name" = .ok ([], [Errorf "name must not be empty, got "])
        ∧ ([] : List String) = []) :=
  ⟨⟨by decide, (NoZeroValues_zero_detection "name").2.2.1 ⟨true, 0, 0⟩ (by decide)⟩,
   ⟨by decide, (NoZeroValues_zero_detection "name").2.2.2.1 "x" (by decide)⟩,
   ⟨by decide, (NoZeroValues_zero_detection "name").2.2.2.2.1 5 (by decide)⟩,
   ⟨by decide, (NoZeroValues_zero_detection "name").2.2.2.2.2.1 ⟨false, 1023, 0⟩ (by decide)⟩,
   ⟨by decide, (NoZeroValues_zero_detection "name").2.2.2.2.2.2 (.string "") []
      [Errorf "name must not be empty, got "] (by decide)⟩⟩

/-- C5: for every key, `NoZeroValues` faults on the zero value of every type
whose kind is not string, int or float64, and on every value of such a type
that `==` holds for with the zero value; it returns no outcome there, so the
misuse is never an entry of a returned error list. When the type is
comparable (a boolean, an `int64`, a `float32`, a pointer, ...) the fault is
the explicit panic of the function, which names the type and the key; when
it is not (a slice, a map, a function) the fault is that of the comparison. -/
theorem NoZeroValues_unsupported_zero_faults (t : GoType) (k : String)
    (h : t.Kind ≠ .String ∧ t.Kind ≠ .Int ∧ t.Kind ≠ .Float64) :
    (∃ f, NoZeroValues (Zero t) k = .error f)
      ∧ (∀ (ws : List String) (es : List GoError), NoZeroValues (Zero t) k ≠ .ok (ws, es))
      ∧ (t.comparable = true → ∀ i : Value, TypeOf i = some t →
          interfaceEq i (Zero t) = .ok true →
          NoZeroValues i k =
            .error (.panicked ("can't use NoZeroValues with " ++ t.fmtT ++ " attribute " ++ k)))
      ∧ (t.comparable = true →
          NoZeroValues (Zero t) k =
            .error (.panicked ("can't use NoZeroValues with " ++ t.fmtT ++ " attribute " ++ k)))
      ∧ (t.comparable = false → ∀ i : Value, TypeOf i = some t →
          ∃ msg, NoZeroValues i k = .error (.runtimeError msg))
      ∧ NoZeroValues (.bool false) k =
          .error (.panicked ("can't use NoZeroValues with bool attribute " ++ k)) := by
  obtain ⟨h1, h2, h3⟩ := h
  cases t with
  | string => exact absurd rfl h1
  | int => exact absurd rfl h2
  | float64 => exact absurd rfl h3
  | bool =>
    refine ⟨⟨_, rfl⟩, fun ws es hok => Except.noConfusion hok, ?_, fun _ => rfl,
      fun hc => Bool.noConfusion hc, rfl⟩
    intro _ i hi heq
    cases i <;> simp only [TypeOf, Option.some.injEq, reduceCtorEq] at hi
    rename_i b
    cases b
    · rfl
    · simp [Zero, interfaceEq] at heq
  | sliceOfInterface =>
    refine ⟨⟨_, rfl⟩, fun ws es hok => Except.noConfusion hok,
      fun hc => Bool.noConfusion hc, fun hc => Bool.noConfusion hc, ?_, rfl⟩
    intro _ i hi
    cases i <;> simp only [TypeOf, Option.some.injEq, reduceCtorEq] at hi
    exact ⟨_, rfl⟩
  | mapStringInterface =>
    refine ⟨⟨_, rfl⟩, fun ws es hok => Except.noConfusion hok,
      fun hc => Bool.noConfusion hc, fun hc => Bool.noConfusion hc, ?_, rfl⟩
    intro _ i hi
    cases i <;> simp only [TypeOf, Option.some.injEq, reduceCtorEq] at hi
    exact ⟨_, rfl⟩
  | other u =>
    have hz : NoZeroValues (Zero (.other u)) k =
        if u.comparable = true then
          .error (.panicked ("can't use NoZeroValues with " ++ u.name ++ " attribute " ++ k))
        else .error (.runtimeError ("runtime error: comparing uncomparable type " ++ u.name)) := by
      simp only [Zero]
      rw [NoZeroValues_other]
      simp
    refine ⟨?_, ?_, ?_, ?_, ?_, rfl⟩
    · rw [hz]
      split
      · exact ⟨_, rfl⟩
      · exact ⟨_, rfl⟩
    · intro ws es hok
      rw [hz] at hok
      split at hok <;> exact Except.noConfusion hok
    · intro hc i hi heq
      cases i <;> simp only [TypeOf, Option.some.injEq, reduceCtorEq] at hi
      rename_i u2 code
      injection hi with hu
      subst hu
      have hc2 : u2.comparable = true := hc
      rw [NoZeroValues_other, if_pos hc2]
      have hcode : code = some 0 := by
        simp only [Zero, interfaceEq, if_true, hc2] at heq
        injection heq with heq
        cases code with
        | none => simp [codeEq] at heq
        | some c =>
          simp only [codeEq, beq_iff_eq] at heq
          rw [heq]
      rw [if_pos hcode]
      rfl
    · intro hc
      have hc2 : u.comparable = true := hc
      rw [hz, if_pos hc2]
      rfl
    · intro hc i hi
      cases i <;> simp only [TypeOf, Option.some.injEq, reduceCtorEq] at hi
      rename_i u2 code
      injection hi with hu
      subst hu
      have hc2 : ¬ u2.comparable = true := by
        intro h
        have : GoType.comparable (.other u2) = true := h
        rw [hc] at this
        exact Bool.noConfusion this
      rw [NoZeroValues_other, if_neg hc2]
      exact ⟨_, rfl⟩

/-- A witness of `NoZeroValues_unsupported_zero_faults`: the zero of `int64`,
the nil pointer to a set, a zero of `float32` and the nil slice of strings. -/
theorem NoZeroValues_unsupported_zero_faults_witness :
    ((GoType.other typeInt64).Kind ≠ .String ∧ (GoType.other typeInt64).Kind ≠ .Int
        ∧ (GoType.other typeInt64).Kind ≠ .Float64)
      ∧ NoZeroValues (.other typeInt64 (some 0)) "name" =
          .error (.panicked "can't use NoZeroValues with int64 attribute name")
      ∧ NoZeroValues (.other typeSetPointer (some 0)) "name" =
          .error (.panicked "can't use NoZeroValues with *schema.Set attribute name")
      ∧ (TypeOf (.other typeFloat32 (some 0)) = some (.other typeFloat32)
        ∧ interfaceEq (.other typeFloat32 (some 0)) (Zero (.other typeFloat32)) = .ok true
        ∧ NoZeroValues (.other typeFloat32 (some 0)) "name" =
            .error (.panicked "can't use NoZeroValues with float32 attribute name"))
      ∧ ∃ msg, NoZeroValues (.other typeStringSlice (some 0)) "name" =
          .error (.runtimeError msg) :=
  ⟨by decide,
   (NoZeroValues_unsupported_zero_faults (.other typeInt64) "name" (by decide)).2.2.2.1 rfl,
   (NoZeroValues_unsupported_zero_faults (.other typeSetPointer) "name"
      (by decide)).2.2.2.1 rfl,
   ⟨rfl, by decide,
    (NoZeroValues_unsupported_zero_faults (.other typeFloat32) "name" (by decide)).2.2.1 rfl
      (.other typeFloat32 (some 0)) rfl (by decide)⟩,
   (NoZeroValues_unsupported_zero_faults (.other typeStringSlice) "name"
      (by decide)).2.2.2.2.1 rfl (.other typeStringSlice (some 0)) rfl⟩

/-! ## `ToDiagFunc` -/

/-- The first loop of `ToDiagFunc` appends one `Warning` diagnostic per
warning, in order. -/
theorem ToDiagFunc.warningLoop_eq (p : Path) (ws : List String) :
    ∀ diags : List Diagnostic,
      ToDiagFunc.warningLoop p ws diags = diags ++ ws.map fun w => ⟨.Warning, w, p⟩ := by
  induction ws with
  | nil => intro diags; simp [ToDiagFunc.warningLoop]
  | cons w ws ih => intro diags; simp [ToDiagFunc.warningLoop, ih]

/-- The second loop of `ToDiagFunc`, on errors none of which is nil, appends
one `Error` diagnostic per error, in order, each with the text of its error
and the path `p`. -/
theorem ToDiagFunc.errorLoop_ok (p : Path) (es : List GoError) :
    ∀ diags : List Diagnostic, (∀ e ∈ es, e ≠ GoError.nil) →
      ∃ tail : List Diagnostic, ToDiagFunc.errorLoop p es diags = .ok (diags ++ tail)
        ∧ List.Forall₂
            (fun d e => d.Severity = .Error ∧ e.Error = .ok d.Summary ∧ d.AttributePath = p)
            tail es := by
  induction es with
  | nil =>
    intro diags _
    exact ⟨[], by simp [ToDiagFunc.errorLoop], List.Forall₂.nil⟩
  | cons e es ih =>
    intro diags h
    cases e with
    | nil => exact absurd rfl (h .nil (List.mem_cons_self _ _))
    | ofText msg =>
      obtain ⟨tail, htail, hrel⟩ :=
        ih (diags ++ [⟨.Error, msg, p⟩]) (fun e he => h e (List.mem_cons_of_mem _ he))
      refine ⟨⟨.Error, msg, p⟩ :: tail, ?_, List.Forall₂.cons ⟨rfl, rfl, rfl⟩ hrel⟩
      simp only [ToDiagFunc.errorLoop, GoError.Error, htail]
      simp

/-- The second loop of `ToDiagFunc` faults when an entry of the errors is the
nil error. -/
theorem ToDiagFunc.errorLoop_nil (p : Path) (es : List GoError) :
    ∀ diags : List Diagnostic, GoError.nil ∈ es →
      ToDiagFunc.errorLoop p es diags =
        .error (.runtimeError
          "runtime error: invalid memory address or nil pointer dereference") := by
  induction es with
  | nil => intro diags h; cases h
  | cons e es ih =>
    intro diags h
    cases e with
    | nil => rfl
    | ofText msg =>
      have hmem : GoError.nil ∈ es := by
        rcases List.mem_cons.1 h with h | h
        · exact GoError.noConfusion h
        · exact h
      simp only [ToDiagFunc.errorLoop, GoError.Error]
      exact ih _ hmem

/-- A diagnostic that the second loop of `ToDiagFunc` returns was there
before the loop or carries the path `p`. -/
theorem ToDiagFunc.errorLoop_path (p : Path) (es : List GoError) :
    ∀ diags ds : List Diagnostic, ToDiagFunc.errorLoop p es diags = .ok ds →
      ∀ d ∈ ds, d ∈ diags ∨ d.AttributePath = p := by
  induction es with
  | nil =>
    intro diags ds h d hd
    simp only [ToDiagFunc.errorLoop] at h
    injection h with h
    subst h
    exact Or.inl hd
  | cons e es ih =>
    intro diags ds h d hd
    cases e with
    | nil =>
      simp only [ToDiagFunc.errorLoop, GoError.Error] at h
      exact Except.noConfusion h
    | ofText msg =>
      simp only [ToDiagFunc.errorLoop, GoError.Error] at h
      rcases ih _ ds h d hd with hin | hpath
      · rcases List.mem_append.1 hin with h1 | h1
        · exact Or.inl h1
        · rw [List.mem_singleton.1 h1]
          exact Or.inr rfl
      · exact Or.inr hpath

/-- On a path whose last step is the attribute name `n`, `ToDiagFunc v`
calls `v` on `n`, turns its warnings into diagnostics and runs the loop over
its errors. -/
theorem ToDiagFunc_eq (v : SchemaValidateFunc) (x : Value) (p : Path) (n : String)
    (hp : p.getLast? = some (.GetAttrStep n)) :
    ToDiagFunc v x p =
      match v x n with
      | .error f => .error f
      | .ok (ws, es) =>
        ToDiagFunc.errorLoop p es (ws.map fun w => (⟨.Warning, w, p⟩ : Diagnostic)) := by
  simp only [ToDiagFunc, hp]
  cases hv : v x n with
  | error f => rfl
  | ok r =>
    obtain ⟨ws, es⟩ := r
    simp [ToDiagFunc.warningLoop_eq]

/-- On a path that is empty or whose last step is no attribute name,
`ToDiagFunc v` faults. -/
theorem ToDiagFunc_fault (v : SchemaValidateFunc) (x : Value) (p : Path)
    (hp : ∀ n, p.getLast? ≠ some (.GetAttrStep n)) :
    ToDiagFunc v x p =
      .error (.runtimeError
        (if p = [] then "runtime error: index out of range [-1]"
         else "interface conversion: cty.PathStep is cty.IndexStep, not cty.GetAttrStep")) := by
  cases hl : p.getLast? with
  | none =>
    have : p = [] := List.getLast?_eq_none_iff.1 hl
    simp [ToDiagFunc, hl, this]
  | some s =>
    have hne : p ≠ [] := by
      rintro rfl
      simp at hl
    cases s with
    | GetAttrStep n => exact absurd hl (hp n)
    | IndexStep key => simp [ToDiagFunc, hl, hne]

/-- C6, as amended: when the last step of the path `p` is the attribute name
`n` and `v x n` returns warnings `ws` and errors `es` none of which is the
nil error, `ToDiagFunc v x p` returns `ws.length + es.length` diagnostics:
the first `ws.length` are the warnings in order, with severity `Warning`, the
others have severity `Error` and the message texts of the errors in order,
and each carries the whole path `p`. When an entry of `es` is the nil error,
`ToDiagFunc v x p` faults in the call of `Error` and returns no diagnostic. -/
theorem ToDiagFunc_diagnostics (v : SchemaValidateFunc) (x : Value) (p : Path) (n : String)
    (ws : List String) (es : List GoError)
    (hp : p.getLast? = some (.GetAttrStep n)) (hv : v x n = .ok (ws, es)) :
    ((∀ e ∈ es, e ≠ GoError.nil) →
        ∃ ds : List Diagnostic, ToDiagFunc v x p = .ok ds
          ∧ ds.length = ws.length + es.length
          ∧ ds.take ws.length = ws.map (fun w => ⟨.Warning, w, p⟩)
          ∧ List.Forall₂
              (fun d e => d.Severity = .Error ∧ e.Error = .ok d.Summary ∧ d.AttributePath = p)
              (ds.drop ws.length) es)
      ∧ (GoError.nil ∈ es →
          ToDiagFunc v x p =
            .error (.runtimeError
              "runtime error: invalid memory address or nil pointer dereference")) := by
  constructor
  · intro hnil
    obtain ⟨tail, htail, hrel⟩ :=
      ToDiagFunc.errorLoop_ok p es (ws.map fun w => (⟨.Warning, w, p⟩ : Diagnostic)) hnil
    refine ⟨_, by rw [ToDiagFunc_eq v x p n hp, hv]; exact htail, ?_, ?_, ?_⟩
    · simp [hrel.length_eq]
    · simp [List.take_append_eq_append_take]
    · simpa [List.drop_append_eq_append_drop] using hrel
  · intro hmem
    rw [ToDiagFunc_eq v x p n hp, hv]
    exact ToDiagFunc.errorLoop_nil p es _ hmem

/-- A witness of `ToDiagFunc_diagnostics`: a validator with two warnings and
one error, under a two-step path, and a validator with a nil error. -/
theorem ToDiagFunc_diagnostics_witness :
    ([PathStep.GetAttrStep "a", .GetAttrStep "b"].getLast? = some (.GetAttrStep "b")
        ∧ noisy (.int 1) "b" = .ok (["b: first", "b: second"], [Errorf "b: failed"])
        ∧ (∀ e ∈ [Errorf "b: failed"], e ≠ GoError.nil))
      ∧ (∃ ds : List Diagnostic,
          ToDiagFunc noisy (.int 1) [.GetAttrStep "a", .GetAttrStep "b"] = .ok ds
          ∧ ds.length = 2 + 1
          ∧ ds.take 2 =
              [⟨.Warning, "b: first", [.GetAttrStep "a", .GetAttrStep "b"]⟩,
               ⟨.Warning, "b: second", [.GetAttrStep "a", .GetAttrStep "b"]⟩]
          ∧ List.Forall₂
              (fun d e => d.Severity = .Error ∧ e.Error = .ok d.Summary
                ∧ d.AttributePath = [.GetAttrStep "a", .GetAttrStep "b"])
              (ds.drop 2) [Errorf "b: failed"])
      ∧ (nilError (.int 1) "b" = .ok ([], [GoError.nil])
        ∧ ToDiagFunc nilError (.int 1) [.GetAttrStep "a", .GetAttrStep "b"] =
            .error (.runtimeError
              "runtime error: invalid memory address or nil pointer dereference")) :=
  have hnil : ∀ e ∈ [Errorf "b: failed"], e ≠ GoError.nil := by
    intro e he
    rw [List.mem_singleton.1 he]
    decide
  ⟨⟨by decide, by decide, hnil⟩,
   (ToDiagFunc_diagnostics noisy (.int 1) [.GetAttrStep "a", .GetAttrStep "b"] "b"
     ["b: first", "b: second"] [Errorf "b: failed"] (by decide) (by decide)).1 hnil,
   ⟨rfl,
    (ToDiagFunc_diagnostics nilError (.int 1) [.GetAttrStep "a", .GetAttrStep "b"] "b"
      [] [GoError.nil] (by decide) rfl).2 (List.mem_singleton.2 rfl)⟩⟩

/-- C6, the claim as stated fails: a validator returns no warning and one
error entry, the nil error; the claim promises one diagnostic, and
`ToDiagFunc` faults in the call of `Error` on that entry instead. -/
theorem ToDiagFunc_nil_error_counterexample :
    [PathStep.GetAttrStep "b"].getLast? = some (.GetAttrStep "b")
      ∧ nilError (.string "x") "b" = .ok ([], [GoError.nil])
      ∧ ToDiagFunc nilError (.string "x") [.GetAttrStep "b"] =
          .error (.runtimeError
            "runtime error: invalid memory address or nil pointer dereference")
      ∧ ¬ ∃ ds : List Diagnostic,
          ToDiagFunc nilError (.string "x") [.GetAttrStep "b"] = .ok ds
            ∧ ds.length = 0 + 1 := by
  refine ⟨by decide, rfl, by decide, ?_⟩
  rintro ⟨ds, hds, _⟩
  have h : ToDiagFunc nilError (.string "x") [.GetAttrStep "b"] =
      .error (.runtimeError
        "runtime error: invalid memory address or nil pointer dereference") := by decide
  rw [h] at hds
  exact Except.noConfusion hds

/-- C7: under a path `pre ++ [attr n]`, `ToDiagFunc v` calls `v` on the value
and on the name `n` of the last step alone: its result depends on `v` only
through `v x n`, a fault of `v x n` is its result, and a validator that
returns its key as a warning yields the summary `n`, whatever the steps
`pre` are. On the empty string under the path `a`, `b`, `NoZeroValues` yields
one `Error` diagnostic with summary `b must not be empty, got `. -/
theorem ToDiagFunc_terminal_name (v : SchemaValidateFunc) (x : Value) (pre : Path)
    (n : String) :
    (∀ u : SchemaValidateFunc, u x n = v x n →
        ToDiagFunc u x (pre ++ [.GetAttrStep n]) = ToDiagFunc v x (pre ++ [.GetAttrStep n]))
      ∧ (∀ f : Fault, v x n = .error f →
        ToDiagFunc v x (pre ++ [.GetAttrStep n]) = .error f)
      ∧ ToDiagFunc (fun _ key => .ok ([key], [])) x (pre ++ [.GetAttrStep n]) =
          .ok [⟨.Warning, n, pre ++ [.GetAttrStep n]⟩]
      ∧ ToDiagFunc NoZeroValues (.string "") [.GetAttrStep "a", .GetAttrStep "b"] =
          .ok [⟨.Error, "b must not be empty, got ", [.GetAttrStep "a", .GetAttrStep "b"]⟩] := by
  have hp : (pre ++ [PathStep.GetAttrStep n]).getLast? = some (.GetAttrStep n) := by simp
  refine ⟨?_, ?_, ?_, by decide⟩
  · intro u hu
    rw [ToDiagFunc_eq u x _ n hp, ToDiagFunc_eq v x _ n hp, hu]
  · intro f hf
    rw [ToDiagFunc_eq v x _ n hp, hf]
  · rw [ToDiagFunc_eq _ x _ n hp]
    simp [ToDiagFunc.errorLoop]

/-- A witness of `ToDiagFunc_terminal_name`: two validators that agree on the
key `b`, and a validator that faults there. -/
theorem ToDiagFunc_terminal_name_witness :
    (deprecated (.bool false) "b" = deprecated (.int 7) "b"
        ∧ ToDiagFunc (fun _ key => deprecated (.bool false) key) (.int 7)
              ([.GetAttrStep "a"] ++ [.GetAttrStep "b"])
            = ToDiagFunc (fun i key => deprecated i key) (.int 7)
              ([.GetAttrStep "a"] ++ [.GetAttrStep "b"]))
      ∧ (NoZeroValues (.bool false) "b"
            = .error (.panicked "can't use NoZeroValues with bool attribute b")
        ∧ ToDiagFunc NoZeroValues (.bool false) ([.IndexStep (.number 0)] ++ [.GetAttrStep "b"])
            = .error (.panicked "can't use NoZeroValues with bool attribute b")) :=
  ⟨⟨by decide,
    (ToDiagFunc_terminal_name (fun i key => deprecated i key) (.int 7) [.GetAttrStep "a"] "b").1
      (fun _ key => deprecated (.bool false) key) (by decide)⟩,
   ⟨by decide,
    (ToDiagFunc_terminal_name NoZeroValues (.bool false) [.IndexStep (.number 0)] "b").2.1
      _ (by decide)⟩⟩

/-- C8: on a path that is empty or whose last step is no attribute name,
`ToDiagFunc v x p` is one and the same fault for every validator `v`, also
for one that would itself fault, and no diagnostic is returned; hence every
diagnostic that `ToDiagFunc` returns carries a non-empty path whose last step
is an attribute name. -/
theorem ToDiagFunc_bad_path (x : Value) (p : Path) :
    ((∀ n, p.getLast? ≠ some (.GetAttrStep n)) →
        ∃ f : Fault, ∀ v : SchemaValidateFunc, ToDiagFunc v x p = .error f)
      ∧ (∀ (v : SchemaValidateFunc) (ds : List Diagnostic), ToDiagFunc v x p = .ok ds →
          ∀ d ∈ ds, d.AttributePath ≠ []
            ∧ ∃ n, d.AttributePath.getLast? = some (.GetAttrStep n)) := by
  constructor
  · intro hp
    exact ⟨_, fun v => ToDiagFunc_fault v x p hp⟩
  · intro v ds hok d hd
    by_cases hp : ∃ n, p.getLast? = some (.GetAttrStep n)
    · obtain ⟨n, hn⟩ := hp
      have hne : p ≠ [] := by
        rintro rfl
        simp at hn
      rw [ToDiagFunc_eq v x p n hn] at hok
      cases hv : v x n with
      | error f => rw [hv] at hok; exact Except.noConfusion hok
      | ok r =>
        obtain ⟨ws, es⟩ := r
        rw [hv] at hok
        have hpath : d.AttributePath = p := by
          rcases ToDiagFunc.errorLoop_path p es _ ds hok d hd with h | h
          · obtain ⟨w, _, rfl⟩ := List.mem_map.1 h
            rfl
          · exact h
        rw [hpath]
        exact ⟨hne, n, hn⟩
    · have hp2 : ∀ n, p.getLast? ≠ some (.GetAttrStep n) := fun n hn => hp ⟨n, hn⟩
      rw [ToDiagFunc_fault v x p hp2] at hok
      exact Except.noConfusion hok

/-- A witness of `ToDiagFunc_bad_path`: a path that ends in an index step
faults, and the diagnostic returned under the path `a` carries that path. -/
theorem ToDiagFunc_bad_path_witness :
    ((∀ n, [PathStep.GetAttrStep "a", .IndexStep (.number 0)].getLast? ≠ some (.GetAttrStep n))
        ∧ ∃ f : Fault, ∀ v : SchemaValidateFunc,
            ToDiagFunc v (.string "") [.GetAttrStep "a", .IndexStep (.number 0)] = .error f)
      ∧ (ToDiagFunc NoZeroValues (.string "") [.GetAttrStep "a"] =
            .ok [⟨.Error, "a must not be empty, got ", [.GetAttrStep "a"]⟩]
        ∧ [PathStep.GetAttrStep "a"] ≠ []
        ∧ ∃ n, [PathStep.GetAttrStep "a"].getLast? = some (.GetAttrStep n)) :=
  have h : ∀ n, [PathStep.GetAttrStep "a", .IndexStep (.number 0)].getLast?
      ≠ some (.GetAttrStep n) := by
    intro n hn
    simp at hn
  ⟨⟨h, (ToDiagFunc_bad_path (.string "") [.GetAttrStep "a", .IndexStep (.number 0)]).1 h⟩,
   ⟨by decide,
    (ToDiagFunc_bad_path (.string "") [.GetAttrStep "a"]).2 NoZeroValues
      [⟨.Error, "a must not be empty, got ", [.GetAttrStep "a"]⟩] (by decide)
      ⟨.Error, "a must not be empty, got ", [.GetAttrStep "a"]⟩ (List.mem_singleton.2 rfl)⟩⟩

end Validation

namespace Structure

open Validation (GoError Errorf)

/-! ## `SuppressJsonDiff` -/

/-- In entries without a repeated key, each entry is what a lookup of its key
finds. -/
theorem mapIndex_of_mem (m : Entries) (h : uniqueKeysMap m = true) :
    ∀ k v, (k, v) ∈ m → mapIndex k m = some v := by
  induction m with
  | nil => intro k v hmem; cases hmem
  | cons e rest ih =>
    obtain ⟨k0, v0⟩ := e
    simp only [uniqueKeysMap, Bool.and_eq_true, Option.isNone_iff_eq_none] at h
    obtain ⟨⟨hnone, _⟩, hrest⟩ := h
    intro k v hmem
    rcases List.mem_cons.1 hmem with heq | hin
    · cases heq
      simp [mapIndex]
    · have hk := ih hrest k v hin
      have hne : k0 ≠ k := by
        rintro rfl
        rw [hnone] at hk
        cases hk
      simp [mapIndex, hne, hk]

mutual
/-- A decoded value is deeply equal to itself. -/
theorem deepValueEqual_refl :
    ∀ v : JsonValue, v.uniqueKeys = true → deepValueEqual v v = true
  | .null, _ => by simp [deepValueEqual]
  | .bool _, _ => by simp [deepValueEqual]
  | .number _, _ => by simp [deepValueEqual]
  | .string _, _ => by simp [deepValueEqual]
  | .array xs, h => by
    simp only [JsonValue.uniqueKeys] at h
    simpa [deepValueEqual] using deepEqualSlice_refl xs h
  | .object m, h => by
    simp only [JsonValue.uniqueKeys] at h
    simpa [deepValueEqual] using
      deepEqualMap_of_lookup m m h (fun k v hm => mapIndex_of_mem m h k v hm)
/-- A sequence of decoded values is deeply equal to itself. -/
theorem deepEqualSlice_refl :
    ∀ xs : List JsonValue, uniqueKeysSlice xs = true → deepEqualSlice xs xs = true
  | [], _ => by simp [deepEqualSlice]
  | x :: xs, h => by
    simp only [uniqueKeysSlice, Bool.and_eq_true] at h
    simp [deepEqualSlice, deepValueEqual_refl x h.1, deepEqualSlice_refl xs h.2]
/-- Entries each of which is found in `m` under its key compare equal
against `m`. -/
theorem deepEqualMap_of_lookup :
    ∀ (sub m : Entries), uniqueKeysMap sub = true →
      (∀ k v, (k, v) ∈ sub → mapIndex k m = some v) → deepEqualMap sub m = true
  | [], _, _, _ => by simp [deepEqualMap]
  | (k, v) :: rest, m, h, hl => by
    simp only [uniqueKeysMap, Bool.and_eq_true] at h
    have h1 := hl k v (List.mem_cons_self _ _)
    have h2 := deepEqualMap_of_lookup rest m h.2
      (fun k1 v1 hm => hl k1 v1 (List.mem_cons_of_mem _ hm))
    simp [deepEqualMap, h1, deepValueEqual_refl v h.1.2, h2]
end

/-- The function `reflect.DeepEqual` holds between a decoded map and itself. -/
theorem DeepEqual_refl : ∀ m : Option GoMap, DeepEqual m m = true
  | none => rfl
  | some m => by
    simp [DeepEqual, deepEqualMap_of_lookup m.val m.val m.property
      (fun k v hm => mapIndex_of_mem m.val m.property k v hm)]

/-- C9: when the decoder fails on the old text or on the new text,
`SuppressJsonDiff` returns `false`; the decode error is not passed on. -/
theorem SuppressJsonDiff_decode_failure {ResourceData : Type}
    (ExpandJsonFromString : String → Except GoError (Option GoMap))
    (k old new : String) (d : ResourceData)
    (h : (∃ e, ExpandJsonFromString old = .error e)
      ∨ (∃ e, ExpandJsonFromString new = .error e)) :
    SuppressJsonDiff ExpandJsonFromString k old new d = false := by
  unfold SuppressJsonDiff
  rcases h with ⟨e, he⟩ | ⟨e, he⟩
  · rw [he]
  · cases hold : ExpandJsonFromString old with
    | error e1 => rfl
    | ok oldMap => simp [he]

/-- A witness of `SuppressJsonDiff_decode_failure`: a text that is no JSON
against the empty object, in both positions. -/
theorem SuppressJsonDiff_decode_failure_witness :
    ((∃ e, Example.decoder "not json" = .error e)
        ∧ SuppressJsonDiff Example.decoder "policy" "not json" "\x7b\x7d" () = false)
      ∧ ((∃ e, Example.decoder "not json" = .error e)
        ∧ SuppressJsonDiff Example.decoder "policy" "\x7b\x7d" "not json" () = false) :=
  ⟨⟨⟨_, rfl⟩, SuppressJsonDiff_decode_failure Example.decoder "policy" "not json" "\x7b\x7d" ()
      (Or.inl ⟨_, rfl⟩)⟩,
   ⟨⟨_, rfl⟩, SuppressJsonDiff_decode_failure Example.decoder "policy" "\x7b\x7d" "not json" ()
      (Or.inr ⟨_, rfl⟩)⟩⟩

/-- C10: when the decoder decodes the text `s`, `SuppressJsonDiff` on `s`
and `s` returns `true`. The decoder is a function, so it decodes `s` to the
same map both times. -/
theorem SuppressJsonDiff_same_text {ResourceData : Type}
    (ExpandJsonFromString : String → Except GoError (Option GoMap))
    (k s : String) (d : ResourceData) (m : Option GoMap)
    (h : ExpandJsonFromString s = .ok m) :
    SuppressJsonDiff ExpandJsonFromString k s s d = true := by
  simp [SuppressJsonDiff, h, DeepEqual_refl]

/-- A witness of `SuppressJsonDiff_same_text`: an object with one key. -/
theorem SuppressJsonDiff_same_text_witness :
    Example.decoder "\x7b\"a\":1\x7d" = .ok (some ⟨[("a", .number 1)], rfl⟩)
      ∧ SuppressJsonDiff Example.decoder "policy" "\x7b\"a\":1\x7d" "\x7b\"a\":1\x7d" () = true :=
  ⟨rfl, SuppressJsonDiff_same_text Example.decoder "policy" "\x7b\"a\":1\x7d" ()
      (some ⟨[("a", .number 1)], rfl⟩) rfl⟩

end Structure

namespace Structure

open Validation (GoError Errorf)

/-! ## Deep equality of decoded maps -/

/-- A lookup that finds a value finds an entry of the map. -/
theorem mem_of_mapIndex (m : Entries) :
    ∀ k v, mapIndex k m = some v → (k, v) ∈ m := by
  induction m with
  | nil => intro k v h; simp [mapIndex] at h
  | cons e rest ih =>
    obtain ⟨k0, v0⟩ := e
    intro k v h
    by_cases hk : k0 = k
    · subst hk
      simp [mapIndex] at h
      subst h
      exact List.mem_cons_self _ _
    · simp [mapIndex, hk] at h
      exact List.mem_cons_of_mem _ (ih k v h)

/-- A lookup finds nothing exactly when the key is not among the keys. -/
theorem mapIndex_eq_none_iff (m : Entries) (k : String) :
    mapIndex k m = none ↔ k ∉ m.map Prod.fst := by
  induction m with
  | nil => simp [mapIndex]
  | cons e rest ih =>
    obtain ⟨k0, v0⟩ := e
    by_cases hk : k0 = k
    · subst hk
      simp [mapIndex]
    · have hk2 : ¬ k = k0 := fun h => hk h.symm
      simp [mapIndex, hk, hk2, ih]

/-- The keys of entries without a repeated key are pairwise distinct. -/
theorem nodup_keys (m : Entries) (h : uniqueKeysMap m = true) :
    (m.map Prod.fst).Nodup := by
  induction m with
  | nil => simp
  | cons e rest ih =>
    obtain ⟨k0, v0⟩ := e
    simp only [uniqueKeysMap, Bool.and_eq_true, Option.isNone_iff_eq_none] at h
    obtain ⟨⟨hnone, _⟩, hrest⟩ := h
    simp only [List.map_cons, List.nodup_cons]
    exact ⟨(mapIndex_eq_none_iff rest k0).1 hnone, ih hrest⟩

/-- The values of entries without a repeated key hold no repeated key. -/
theorem uniqueKeys_of_mem (m : Entries) (h : uniqueKeysMap m = true) :
    ∀ k v, (k, v) ∈ m → v.uniqueKeys = true := by
  induction m with
  | nil => intro k v hmem; cases hmem
  | cons e rest ih =>
    obtain ⟨k0, v0⟩ := e
    simp only [uniqueKeysMap, Bool.and_eq_true] at h
    intro k v hmem
    rcases List.mem_cons.1 hmem with heq | hin
    · cases heq
      exact h.1.2
    · exact ih h.2 k v hin

/-- The comparison of entries against a map holds exactly when the map has,
under the key of each entry, a value deeply equal to that of the entry. -/
theorem deepEqualMap_iff (sub m : Entries) :
    deepEqualMap sub m = true ↔
      ∀ k v1, (k, v1) ∈ sub → ∃ v2, mapIndex k m = some v2 ∧ deepValueEqual v1 v2 = true := by
  induction sub with
  | nil => simp [deepEqualMap]
  | cons e rest ih =>
    obtain ⟨k0, v0⟩ := e
    simp only [deepEqualMap, Bool.and_eq_true, ih]
    constructor
    · rintro ⟨hhead, htail⟩ k v1 hmem
      rcases List.mem_cons.1 hmem with heq | hin
      · cases heq
        cases hl : mapIndex k0 m with
        | none => rw [hl] at hhead; cases hhead
        | some v2 => rw [hl] at hhead; exact ⟨v2, rfl, hhead⟩
      · exact htail k v1 hin
    · intro hall
      refine ⟨?_, fun k v1 hin => hall k v1 (List.mem_cons_of_mem _ hin)⟩
      obtain ⟨v2, hl, heq⟩ := hall k0 v0 (List.mem_cons_self _ _)
      simp [hl, heq]

/-- Position by position: two sequences compare equal exactly when they have
the same length and deeply equal elements at each position. -/
theorem deepEqualSlice_iff (xs : List JsonValue) :
    ∀ ys, deepEqualSlice xs ys = true ↔
      List.Forall₂ (fun x y => deepValueEqual x y = true) xs ys := by
  induction xs with
  | nil =>
    intro ys
    cases ys with
    | nil => simp [deepEqualSlice]
    | cons y ys => simp [deepEqualSlice]
  | cons x xs ih =>
    intro ys
    cases ys with
    | nil => simp [deepEqualSlice]
    | cons y ys => simp [deepEqualSlice, ih]

/-- Two maps with unique keys and the same entries in any order compare
equal. -/
theorem deepEqualMap_of_perm (a b : Entries) (ha : uniqueKeysMap a = true)
    (hb : uniqueKeysMap b = true) (hperm : a.Perm b) : deepEqualMap a b = true := by
  rw [deepEqualMap_iff]
  intro k v1 hmem
  exact ⟨v1, mapIndex_of_mem b hb k v1 (hperm.mem_iff.1 hmem),
    deepValueEqual_refl v1 (uniqueKeys_of_mem a ha k v1 hmem)⟩

/-- The comparison of two maps of the same length turns around, when the
comparison of each value of the first map does. -/
theorem deepEqualMap_symm_of (m1 m2 : Entries) (u1 : uniqueKeysMap m1 = true)
    (u2 : uniqueKeysMap m2 = true) (hlen : m1.length = m2.length)
    (h12 : deepEqualMap m1 m2 = true)
    (hall : ∀ k v1, (k, v1) ∈ m1 → ∀ v2, v2.uniqueKeys = true →
      deepValueEqual v1 v2 = true → deepValueEqual v2 v1 = true) :
    deepEqualMap m2 m1 = true := by
  rw [deepEqualMap_iff] at h12 ⊢
  have hsub : m1.map Prod.fst ⊆ m2.map Prod.fst := by
    intro k hk
    obtain ⟨⟨k1, v1⟩, hmem, rfl⟩ := List.mem_map.1 hk
    obtain ⟨v2, hl, _⟩ := h12 k1 v1 hmem
    exact List.mem_map.2 ⟨(k1, v2), mem_of_mapIndex m2 k1 v2 hl, rfl⟩
  have hperm : (m1.map Prod.fst).Perm (m2.map Prod.fst) :=
    (List.subperm_of_subset (nodup_keys m1 u1) hsub).perm_of_length_le (by simp [hlen])
  intro k v2 hmem2
  have hk1 : k ∈ m1.map Prod.fst :=
    hperm.mem_iff.2 (List.mem_map.2 ⟨(k, v2), hmem2, rfl⟩)
  obtain ⟨⟨k1, v1⟩, hmem1, hkeq⟩ := List.mem_map.1 hk1
  simp only at hkeq
  subst hkeq
  obtain ⟨w, hl, heq⟩ := h12 k1 v1 hmem1
  have hw : w = v2 := by
    have := mapIndex_of_mem m2 u2 k1 v2 hmem2
    rw [hl] at this
    exact Option.some.inj this
  subst hw
  exact ⟨v1, mapIndex_of_mem m1 u1 k1 v1 hmem1,
    hall k1 v1 hmem1 w (uniqueKeys_of_mem m2 u2 k1 w hmem2) heq⟩

mutual
/-- Deep equality of two decoded values turns around. -/
theorem deepValueEqual_symm :
    ∀ a b : JsonValue, a.uniqueKeys = true → b.uniqueKeys = true →
      deepValueEqual a b = true → deepValueEqual b a = true
  | .null, b, _, _, h => by cases b <;> simp_all [deepValueEqual]
  | .bool _, b, _, _, h => by
    cases b with
    | bool y =>
      simp only [deepValueEqual, beq_iff_eq] at h ⊢
      exact h.symm
    | _ => simp [deepValueEqual] at h
  | .number _, b, _, _, h => by
    cases b with
    | number y =>
      simp only [deepValueEqual, beq_iff_eq] at h ⊢
      exact h.symm
    | _ => simp [deepValueEqual] at h
  | .string _, b, _, _, h => by
    cases b with
    | string y =>
      simp only [deepValueEqual, beq_iff_eq] at h ⊢
      exact h.symm
    | _ => simp [deepValueEqual] at h
  | .array xs, b, ua, ub, h => by
    cases b with
    | array ys =>
      simp only [JsonValue.uniqueKeys] at ua ub
      simp only [deepValueEqual] at h ⊢
      exact deepEqualSlice_symm xs ys ua ub h
    | _ => simp [deepValueEqual] at h
  | .object m1, b, ua, ub, h => by
    cases b with
    | object m2 =>
      simp only [JsonValue.uniqueKeys] at ua ub
      simp only [deepValueEqual, Bool.and_eq_true, beq_iff_eq] at h ⊢
      exact ⟨h.1.symm, deepEqualMap_symm_of m1 m2 ua ub h.1 h.2
        (fun k v1 hmem v2 hu2 heq =>
          deepValueEqual_symm_entries m1 ua k v1 hmem v2 hu2 heq)⟩
    | _ => simp [deepValueEqual] at h
/-- The comparison of two sequences turns around. -/
theorem deepEqualSlice_symm :
    ∀ xs ys : List JsonValue, uniqueKeysSlice xs = true → uniqueKeysSlice ys = true →
      deepEqualSlice xs ys = true → deepEqualSlice ys xs = true
  | [], ys, _, _, h => by cases ys <;> simp_all [deepEqualSlice]
  | x :: xs, ys, ua, ub, h => by
    cases ys with
    | nil => simp [deepEqualSlice] at h
    | cons y ys =>
      simp only [uniqueKeysSlice, Bool.and_eq_true] at ua ub
      simp only [deepEqualSlice, Bool.and_eq_true] at h ⊢
      exact ⟨deepValueEqual_symm x y ua.1 ub.1 h.1, deepEqualSlice_symm xs ys ua.2 ub.2 h.2⟩
/-- Deep equality turns around at each value of the entries. -/
theorem deepValueEqual_symm_entries :
    ∀ sub : Entries, uniqueKeysMap sub = true → ∀ k v1, (k, v1) ∈ sub →
      ∀ v2 : JsonValue, v2.uniqueKeys = true →
        deepValueEqual v1 v2 = true → deepValueEqual v2 v1 = true
  | [], _, _, _, hmem, _, _, _ => by cases hmem
  | (k0, v0) :: rest, hu, k, v1, hmem, v2, hu2, heq => by
    simp only [uniqueKeysMap, Bool.and_eq_true] at hu
    rcases List.mem_cons.1 hmem with h | h
    · cases h
      exact deepValueEqual_symm v0 v2 hu.1.2 hu2 heq
    · exact deepValueEqual_symm_entries rest hu.2 k v1 h v2 hu2 heq
end

/-- The function `reflect.DeepEqual` gives the same answer with its two maps
exchanged. -/
theorem DeepEqual_comm : ∀ a b : Option GoMap, DeepEqual a b = DeepEqual b a
  | none, none => rfl
  | none, some _ => rfl
  | some _, none => rfl
  | some a, some b => by
    have key : ∀ x y : GoMap, DeepEqual (some x) (some y) = true →
        DeepEqual (some y) (some x) = true := by
      intro x y h
      simp only [DeepEqual, Bool.and_eq_true, beq_iff_eq] at h ⊢
      exact ⟨h.1.symm, deepEqualMap_symm_of x.val y.val x.property y.property h.1 h.2
        (fun k v1 hmem v2 hu2 heq =>
          deepValueEqual_symm v1 v2 (uniqueKeys_of_mem x.val x.property k v1 hmem) hu2 heq)⟩
    rw [Bool.eq_iff_iff]
    exact ⟨key a b, key b a⟩

/-! ## Deep equality against the structural equality of the spec -/

/-- Two maps with unique keys of which the first compares equal against the
second, of the same length, have the same keys. -/
theorem keys_perm_of_deepEqualMap (m1 m2 : Entries) (u1 : uniqueKeysMap m1 = true)
    (hlen : m1.length = m2.length) (h12 : deepEqualMap m1 m2 = true) :
    (m1.map Prod.fst).Perm (m2.map Prod.fst) := by
  rw [deepEqualMap_iff] at h12
  have hsub : m1.map Prod.fst ⊆ m2.map Prod.fst := by
    intro k hk
    obtain ⟨⟨k1, v1⟩, hmem, rfl⟩ := List.mem_map.1 hk
    obtain ⟨v2, hl, _⟩ := h12 k1 v1 hmem
    exact List.mem_map.2 ⟨(k1, v2), mem_of_mapIndex m2 k1 v2 hl, rfl⟩
  exact (List.subperm_of_subset (nodup_keys m1 u1) hsub).perm_of_length_le (by simp [hlen])

/-- A lookup finds a value exactly when the key is among the keys. -/
theorem mapIndex_isSome_iff (m : Entries) (k : String) :
    (mapIndex k m).isSome = true ↔ k ∈ m.map Prod.fst := by
  rw [← not_iff_not, ← mapIndex_eq_none_iff]
  cases mapIndex k m <;> simp

/-- The elements of a sequence without a repeated key hold no repeated key. -/
theorem uniqueKeys_of_getElem (xs : List JsonValue) (h : uniqueKeysSlice xs = true) :
    ∀ (i : Nat) (x : JsonValue), xs[i]? = some x → x.uniqueKeys = true := by
  induction xs with
  | nil => intro i x hx; simp at hx
  | cons y ys ih =>
    simp only [uniqueKeysSlice, Bool.and_eq_true] at h
    intro i x hx
    cases i with
    | zero =>
      simp at hx
      subst hx
      exact h.1
    | succ j =>
      simp at hx
      exact ih h.2 j x hx

mutual
/-- Values that `deepValueEqual` accepts are structurally equal. -/
theorem structurallyEqual_of_deepValueEqual :
    ∀ a b : JsonValue, a.uniqueKeys = true → b.uniqueKeys = true →
      deepValueEqual a b = true → StructurallyEqual a b
  | .null, b, _, _, h => by
    cases b with
    | null => exact .null
    | _ => simp [deepValueEqual] at h
  | .bool x, b, _, _, h => by
    cases b with
    | bool y =>
      simp only [deepValueEqual, beq_iff_eq] at h
      subst h
      exact .bool x
    | _ => simp [deepValueEqual] at h
  | .number x, b, _, _, h => by
    cases b with
    | number y =>
      simp only [deepValueEqual, beq_iff_eq] at h
      subst h
      exact .number x
    | _ => simp [deepValueEqual] at h
  | .string x, b, _, _, h => by
    cases b with
    | string y =>
      simp only [deepValueEqual, beq_iff_eq] at h
      subst h
      exact .string x
    | _ => simp [deepValueEqual] at h
  | .array xs, b, ua, ub, h => by
    cases b with
    | array ys =>
      simp only [JsonValue.uniqueKeys] at ua ub
      simp only [deepValueEqual] at h
      obtain ⟨hlen, hall⟩ := structurallyEqual_of_deepEqualSlice xs ys ua ub h
      exact .array xs ys hlen hall
    | _ => simp [deepValueEqual] at h
  | .object m1, b, ua, ub, h => by
    cases b with
    | object m2 =>
      simp only [JsonValue.uniqueKeys] at ua ub
      simp only [deepValueEqual, Bool.and_eq_true, beq_iff_eq] at h
      obtain ⟨hlen, h12⟩ := h
      have hperm := keys_perm_of_deepEqualMap m1 m2 ua hlen h12
      refine .object m1 m2 ?_ ?_
      · intro k
        rw [Bool.eq_iff_iff, mapIndex_isSome_iff, mapIndex_isSome_iff]
        exact hperm.mem_iff
      · intro k v1 v2 hl1 hl2
        have hmem1 := mem_of_mapIndex m1 k v1 hl1
        obtain ⟨w, hw, heq⟩ := (deepEqualMap_iff m1 m2).1 h12 k v1 hmem1
        rw [hl2] at hw
        have hwv : v2 = w := Option.some.inj hw
        subst hwv
        exact structurallyEqual_of_entries m1 ua k v1 hmem1 v2
          (uniqueKeys_of_mem m2 ub k v2 (mem_of_mapIndex m2 k v2 hl2)) heq
    | _ => simp [deepValueEqual] at h
/-- Sequences that `deepEqualSlice` accepts have the same length and
structurally equal elements at each position. -/
theorem structurallyEqual_of_deepEqualSlice :
    ∀ xs ys : List JsonValue, uniqueKeysSlice xs = true → uniqueKeysSlice ys = true →
      deepEqualSlice xs ys = true →
      xs.length = ys.length ∧
        ∀ (i : Nat) (x y : JsonValue), xs[i]? = some x → ys[i]? = some y →
          StructurallyEqual x y
  | [], ys, _, _, h => by
    cases ys with
    | nil => exact ⟨rfl, fun i x y hx _ => by simp at hx⟩
    | cons y ys => simp [deepEqualSlice] at h
  | x :: xs, ys, ua, ub, h => by
    cases ys with
    | nil => simp [deepEqualSlice] at h
    | cons y ys =>
      simp only [uniqueKeysSlice, Bool.and_eq_true] at ua ub
      simp only [deepEqualSlice, Bool.and_eq_true] at h
      have hhead := structurallyEqual_of_deepValueEqual x y ua.1 ub.1 h.1
      obtain ⟨hlen, htail⟩ := structurallyEqual_of_deepEqualSlice xs ys ua.2 ub.2 h.2
      refine ⟨by simp [hlen], ?_⟩
      intro i a b ha hb
      cases i with
      | zero =>
        simp at ha hb
        subst ha
        subst hb
        exact hhead
      | succ j =>
        simp at ha hb
        exact htail j a b ha hb
/-- At each value of the entries, what `deepValueEqual` accepts is
structurally equal to it. -/
theorem structurallyEqual_of_entries :
    ∀ sub : Entries, uniqueKeysMap sub = true → ∀ k v1, (k, v1) ∈ sub →
      ∀ v2 : JsonValue, v2.uniqueKeys = true →
        deepValueEqual v1 v2 = true → StructurallyEqual v1 v2
  | [], _, _, _, hmem, _, _, _ => by cases hmem
  | (k0, v0) :: rest, hu, k, v1, hmem, v2, hu2, heq => by
    simp only [uniqueKeysMap, Bool.and_eq_true] at hu
    rcases List.mem_cons.1 hmem with h | h
    · cases h
      exact structurallyEqual_of_deepValueEqual v0 v2 hu.1.2 hu2 heq
    · exact structurallyEqual_of_entries rest hu.2 k v1 h v2 hu2 heq
end

/-- Sequences of the same length with elements that `deepValueEqual` accepts
at each position are accepted by `deepEqualSlice`. -/
theorem deepEqualSlice_of_getElem (xs : List JsonValue) :
    ∀ ys : List JsonValue, xs.length = ys.length →
      (∀ (i : Nat) (x y : JsonValue), xs[i]? = some x → ys[i]? = some y →
        deepValueEqual x y = true) →
      deepEqualSlice xs ys = true := by
  induction xs with
  | nil =>
    intro ys hlen _
    cases ys with
    | nil => simp [deepEqualSlice]
    | cons y ys => simp at hlen
  | cons x xs ih =>
    intro ys hlen hall
    cases ys with
    | nil => simp at hlen
    | cons y ys =>
      simp only [deepEqualSlice, Bool.and_eq_true]
      refine ⟨hall 0 x y (by simp) (by simp), ih ys (by simpa using hlen) ?_⟩
      intro i a b ha hb
      exact hall (i + 1) a b (by simpa using ha) (by simpa using hb)

/-- Structurally equal values with unique keys are accepted by
`deepValueEqual`. -/
theorem deepValueEqual_of_structurallyEqual (a b : JsonValue) (h : StructurallyEqual a b) :
    a.uniqueKeys = true → b.uniqueKeys = true → deepValueEqual a b = true := by
  induction h with
  | null => intro _ _; simp [deepValueEqual]
  | bool x => intro _ _; simp [deepValueEqual]
  | number x => intro _ _; simp [deepValueEqual]
  | string x => intro _ _; simp [deepValueEqual]
  | array xs ys hlen _ ih =>
    intro ua ub
    simp only [JsonValue.uniqueKeys] at ua ub
    simp only [deepValueEqual]
    apply deepEqualSlice_of_getElem xs ys hlen
    intro i x y hx hy
    exact ih i x y hx hy (uniqueKeys_of_getElem xs ua i x hx) (uniqueKeys_of_getElem ys ub i y hy)
  | object m1 m2 hkeys _ ih =>
    intro ua ub
    simp only [JsonValue.uniqueKeys] at ua ub
    have hiff : ∀ k, k ∈ m1.map Prod.fst ↔ k ∈ m2.map Prod.fst := by
      intro k
      rw [← mapIndex_isSome_iff, ← mapIndex_isSome_iff, hkeys k]
    have hle1 : (m1.map Prod.fst).length ≤ (m2.map Prod.fst).length :=
      (List.subperm_of_subset (nodup_keys m1 ua) (fun k hk => (hiff k).1 hk)).length_le
    have hle2 : (m2.map Prod.fst).length ≤ (m1.map Prod.fst).length :=
      (List.subperm_of_subset (nodup_keys m2 ub) (fun k hk => (hiff k).2 hk)).length_le
    have hlen : m1.length = m2.length := by
      simp only [List.length_map] at hle1 hle2
      omega
    simp only [deepValueEqual, Bool.and_eq_true, beq_iff_eq]
    refine ⟨hlen, (deepEqualMap_iff m1 m2).2 ?_⟩
    intro k v1 hmem
    have hl1 := mapIndex_of_mem m1 ua k v1 hmem
    have hsome : (mapIndex k m2).isSome = true := by
      rw [← hkeys k, hl1]
      rfl
    obtain ⟨v2, hl2⟩ := Option.isSome_iff_exists.1 hsome
    exact ⟨v2, hl2, ih k v1 v2 hl1 hl2 (uniqueKeys_of_mem m1 ua k v1 hmem)
      (uniqueKeys_of_mem m2 ub k v2 (mem_of_mapIndex m2 k v2 hl2))⟩

/-- The function `reflect.DeepEqual` accepts two decoded maps exactly when
they are structurally equal. -/
theorem DeepEqual_iff_structurallyEqual (m1 m2 : Option GoMap) :
    DeepEqual m1 m2 = true ↔ StructurallyEqual (decodedTree m1) (decodedTree m2) := by
  cases m1 with
  | none =>
    cases m2 with
    | none => simp [DeepEqual, decodedTree, StructurallyEqual.null]
    | some b =>
      simp only [DeepEqual, decodedTree, Bool.false_eq_true, false_iff]
      intro h
      cases h
  | some a =>
    cases m2 with
    | none =>
      simp only [DeepEqual, decodedTree, Bool.false_eq_true, false_iff]
      intro h
      cases h
    | some b =>
      have ha : (JsonValue.object a.val).uniqueKeys = true := by
        simp only [JsonValue.uniqueKeys]
        exact a.property
      have hb : (JsonValue.object b.val).uniqueKeys = true := by
        simp only [JsonValue.uniqueKeys]
        exact b.property
      have hd : DeepEqual (some a) (some b)
          = deepValueEqual (.object a.val) (.object b.val) := by
        simp [DeepEqual, deepValueEqual]
      rw [hd]
      exact ⟨structurallyEqual_of_deepValueEqual _ _ ha hb,
        fun h => deepValueEqual_of_structurallyEqual _ _ h ha hb⟩

/-! ## `SuppressJsonDiff` as deep equality -/

/-- C11: when both texts decode, `SuppressJsonDiff` returns `true` exactly
when the two decoded trees are structurally equal in the sense of the spec
(scalars by kind and value, sequences position by position, mappings key by
key whatever the order of their entries), and what it returns is
`reflect.DeepEqual` of the two maps. That equality does not see the order of
the entries of a mapping: two maps with the same entries in a different order
give `true`, as do `a: 1, b: 2` and `b: 2, a: 1`. It does see the order of a
sequence: two maps that hold sequences under the same key give `true` exactly
when the sequences have the same length and deeply equal elements position by
position, and the sequences 1, 2 and 2, 1 are not deeply equal. -/
theorem SuppressJsonDiff_deep_equality {ResourceData : Type}
    (ExpandJsonFromString : String → Except GoError (Option GoMap))
    (k old new : String) (d : ResourceData) (m1 m2 : Option GoMap)
    (h1 : ExpandJsonFromString old = .ok m1) (h2 : ExpandJsonFromString new = .ok m2) :
    (SuppressJsonDiff ExpandJsonFromString k old new d = true ↔
        StructurallyEqual (decodedTree m1) (decodedTree m2))
      ∧ SuppressJsonDiff ExpandJsonFromString k old new d = DeepEqual m1 m2
      ∧ (∀ a b : GoMap, m1 = some a → m2 = some b → a.val.Perm b.val →
          SuppressJsonDiff ExpandJsonFromString k old new d = true)
      ∧ (∀ (a b : GoMap) (key : String) (xs ys : List JsonValue),
          m1 = some a → m2 = some b →
          a.val = [(key, .array xs)] → b.val = [(key, .array ys)] →
          (SuppressJsonDiff ExpandJsonFromString k old new d = true ↔
            List.Forall₂ (fun x y => deepValueEqual x y = true) xs ys))
      ∧ DeepEqual (some Example.mapAB) (some Example.mapBA) = true
      ∧ deepValueEqual (.array [.number 1, .number 2]) (.array [.number 2, .number 1])
          = false := by
  have hmain : SuppressJsonDiff ExpandJsonFromString k old new d = DeepEqual m1 m2 := by
    simp [SuppressJsonDiff, h1, h2]
  refine ⟨by rw [hmain]; exact DeepEqual_iff_structurallyEqual m1 m2, hmain, ?_, ?_,
    by decide, by decide⟩
  · intro a b ha hb hperm
    rw [hmain, ha, hb]
    simp only [DeepEqual, Bool.and_eq_true, beq_iff_eq]
    exact ⟨hperm.length_eq, deepEqualMap_of_perm a.val b.val a.property b.property hperm⟩
  · intro a b key xs ys ha hb hxs hys
    rw [hmain, ha, hb, ← deepEqualSlice_iff]
    simp [DeepEqual, hxs, hys, deepEqualMap, mapIndex, deepValueEqual]

/-- A witness of `SuppressJsonDiff_deep_equality`: two objects that differ in
the order of their keys, and two objects that differ in the order of a
sequence. -/
theorem SuppressJsonDiff_deep_equality_witness :
    (Example.objectDecoder "\x7b\"a\":1,\"b\":2\x7d" = .ok (some Example.mapAB)
        ∧ Example.objectDecoder "\x7b\"b\":2,\"a\":1\x7d" = .ok (some Example.mapBA)
        ∧ Example.mapAB.val.Perm Example.mapBA.val
        ∧ SuppressJsonDiff Example.objectDecoder "policy"
            "\x7b\"a\":1,\"b\":2\x7d" "\x7b\"b\":2,\"a\":1\x7d" () = true)
      ∧ (Example.objectDecoder "\x7b\"x\":[1,2]\x7d" = .ok (some Example.mapX12)
        ∧ Example.objectDecoder "\x7b\"x\":[2,1]\x7d" = .ok (some Example.mapX21)
        ∧ SuppressJsonDiff Example.objectDecoder "policy"
            "\x7b\"x\":[1,2]\x7d" "\x7b\"x\":[2,1]\x7d" () = false) :=
  ⟨⟨rfl, rfl, List.Perm.swap _ _ _,
    (SuppressJsonDiff_deep_equality Example.objectDecoder "policy"
      "\x7b\"a\":1,\"b\":2\x7d" "\x7b\"b\":2,\"a\":1\x7d" ()
      (some Example.mapAB) (some Example.mapBA) rfl rfl).2.2.1
      Example.mapAB Example.mapBA rfl rfl (List.Perm.swap _ _ _)⟩,
   ⟨rfl, rfl,
    (SuppressJsonDiff_deep_equality Example.objectDecoder "policy"
      "\x7b\"x\":[1,2]\x7d" "\x7b\"x\":[2,1]\x7d" ()
      (some Example.mapX12) (some Example.mapX21) rfl rfl).2.1.trans (by decide)⟩⟩

/-- C19: `SuppressJsonDiff` gives the same answer when its two documents are
exchanged, whatever key and resource data it is passed. -/
theorem SuppressJsonDiff_symm {ResourceData ResourceData2 : Type}
    (ExpandJsonFromString : String → Except GoError (Option GoMap))
    (k k2 old new : String) (d : ResourceData) (d2 : ResourceData2) :
    SuppressJsonDiff ExpandJsonFromString k old new d
      = SuppressJsonDiff ExpandJsonFromString k2 new old d2 := by
  unfold SuppressJsonDiff
  cases ExpandJsonFromString old with
  | error e1 =>
    cases ExpandJsonFromString new with
    | error e2 => rfl
    | ok m2 => rfl
  | ok m1 =>
    cases ExpandJsonFromString new with
    | error e2 => rfl
    | ok m2 => exact DeepEqual_comm m1 m2

end Structure

namespace Validation

open Example

/-! ## Faults in `All` and `Any` -/

/-- The loop of `All` faults exactly when some validator faults. -/
theorem All.loop_error_iff (i : Value) (k : String) (V : List SchemaValidateFunc) :
    ∀ (aw : List String) (ae : List GoError),
      (∃ f, All.loop i k V aw ae = .error f) ↔ ∃ v ∈ V, ∃ f, v i k = .error f := by
  induction V with
  | nil => intro aw ae; simp [All.loop]
  | cons v rest ih =>
    intro aw ae
    cases hv : v i k with
    | error f =>
      simp only [All.loop, hv]
      exact ⟨fun _ => ⟨v, List.mem_cons_self _ _, f, hv⟩, fun _ => ⟨f, rfl⟩⟩
    | ok r =>
      obtain ⟨ws, es⟩ := r
      simp only [All.loop, hv, ih]
      constructor
      · rintro ⟨u, hu, f, hf⟩
        exact ⟨u, List.mem_cons_of_mem _ hu, f, hf⟩
      · rintro ⟨u, hu, f, hf⟩
        rcases List.mem_cons.1 hu with rfl | hu
        · rw [hv] at hf
          exact Except.noConfusion hf
        · exact ⟨u, hu, f, hf⟩

/-- The loop of `Any` faults exactly when some validator faults and no
validator before it returns the empty outcome. -/
theorem Any.loop_fault_iff (i : Value) (k : String) (V : List SchemaValidateFunc) :
    ∀ (aw : List String) (ae : List GoError),
      (∃ f, Any.loop i k V aw ae = .error f) ↔
        ∃ pre v post, V = pre ++ v :: post ∧ (∃ f, v i k = .error f)
          ∧ ∀ u ∈ pre, u i k ≠ .ok ([], []) := by
  induction V with
  | nil =>
    intro aw ae
    simp [Any.loop]
  | cons v rest ih =>
    intro aw ae
    cases hv : v i k with
    | error f =>
      simp only [Any.loop, hv]
      refine ⟨fun _ => ⟨[], v, rest, rfl, ⟨f, hv⟩, ?_⟩, fun _ => ⟨f, rfl⟩⟩
      intro u hu
      cases hu
    | ok r =>
      obtain ⟨ws, es⟩ := r
      by_cases hpass : ws = [] ∧ es = []
      · obtain ⟨rfl, rfl⟩ := hpass
        simp only [Any.loop, hv]
        constructor
        · rintro ⟨f, hf⟩
          simp at hf
        · rintro ⟨pre, u, post, hsplit, ⟨f, hf⟩, hpre⟩
          cases pre with
          | nil =>
            simp only [List.nil_append, List.cons.injEq] at hsplit
            rw [← hsplit.1, hv] at hf
            exact Except.noConfusion hf
          | cons p pre =>
            simp only [List.cons_append, List.cons.injEq] at hsplit
            exact absurd (hsplit.1 ▸ hv) (hpre p (List.mem_cons_self _ _))
      · have hcond : (ws.length == 0 && es.length == 0) = false := by
          cases ws <;> cases es <;> simp_all
        have hne : v i k ≠ .ok ([], []) := by
          rw [hv]
          intro h
          injection h with h
          injection h with h1 h2
          exact hpass ⟨h1, h2⟩
        simp only [Any.loop, hv, hcond, Bool.false_eq_true, if_false, ih]
        constructor
        · rintro ⟨pre, u, post, hsplit, hf, hpre⟩
          refine ⟨v :: pre, u, post, by rw [hsplit]; rfl, hf, ?_⟩
          intro w hw
          rcases List.mem_cons.1 hw with rfl | hw
          · exact hne
          · exact hpre w hw
        · rintro ⟨pre, u, post, hsplit, ⟨f, hf⟩, hpre⟩
          cases pre with
          | nil =>
            simp only [List.nil_append, List.cons.injEq] at hsplit
            rw [← hsplit.1, hv] at hf
            exact Except.noConfusion hf
          | cons p pre =>
            simp only [List.cons_append, List.cons.injEq] at hsplit
            exact ⟨pre, u, post, hsplit.2, ⟨f, hf⟩,
              fun w hw => hpre w (List.mem_cons_of_mem _ hw)⟩

/-- C15: `All V` faults on `(i, k)` exactly when some validator of `V` faults
there, whatever the validators before it returned; `Any V` faults exactly
when some validator of `V` faults and no validator before it returned the
empty outcome, the validators after a passing one not being run. After a
passing validator, `NoZeroValues` on the boolean `false` is not run by `Any`
and makes `All` fault. -/
theorem All_Any_faults (V : List SchemaValidateFunc) (i : Value) (k : String) :
    ((∃ f, All V i k = .error f) ↔ ∃ v ∈ V, ∃ f, v i k = .error f)
      ∧ ((∃ f, Any V i k = .error f) ↔
          ∃ pre v post, V = pre ++ v :: post ∧ (∃ f, v i k = .error f)
            ∧ ∀ u ∈ pre, u i k ≠ .ok ([], []))
      ∧ Any [pass, NoZeroValues] (.bool false) k = .ok ([], [])
      ∧ All [pass, NoZeroValues] (.bool false) k =
          .error (.panicked ("can't use NoZeroValues with bool attribute " ++ k)) :=
  ⟨All.loop_error_iff i k V [] [], Any.loop_fault_iff i k V [] [], rfl, rfl⟩

/-- A witness of `All_Any_faults`: with `NoZeroValues` on the boolean `false`
after a validator that reports an error, `All` and `Any` both fault. -/
theorem All_Any_faults_witness :
    (∃ v ∈ [errorOnly, NoZeroValues], ∃ f, v (.bool false) "name" = .error f)
      ∧ (∃ f, All [errorOnly, NoZeroValues] (.bool false) "name" = .error f)
      ∧ (∃ f, Any [errorOnly, NoZeroValues] (.bool false) "name" = .error f) :=
  have h : ∃ v ∈ [errorOnly, NoZeroValues], ∃ f, v (.bool false) "name" = .error f :=
    ⟨NoZeroValues, List.mem_cons_of_mem _ (List.mem_singleton.2 rfl), _, rfl⟩
  ⟨h, (All_Any_faults [errorOnly, NoZeroValues] (.bool false) "name").1.2 h,
   (All_Any_faults [errorOnly, NoZeroValues] (.bool false) "name").2.1.2
     ⟨[errorOnly], NoZeroValues, [], rfl, ⟨_, rfl⟩, by
        intro u hu
        rw [List.mem_singleton.1 hu]
        decide⟩⟩

/-! ## Outcomes of `Any` -/

/-- An outcome of the loop of `Any` is the empty outcome of a passing
validator, or the accumulators followed by the reports of all validators,
each of which reported something. -/
theorem Any.loop_ok_inv (i : Value) (k : String) (V : List SchemaValidateFunc) :
    ∀ (aw : List String) (ae : List GoError) (r : List String × List GoError),
      Any.loop i k V aw ae = .ok r →
        ((∃ v ∈ V, v i k = .ok ([], [])) ∧ r = ([], []))
          ∨ ((∀ v ∈ V, ∃ ws es, v i k = .ok (ws, es) ∧ (ws ≠ [] ∨ es ≠ []))
              ∧ r = (aw ++ (V.map fun v => warningsOf (v i k)).flatten,
                     ae ++ (V.map fun v => errorsOf (v i k)).flatten)) := by
  induction V with
  | nil =>
    intro aw ae r h
    right
    simp only [Any.loop] at h
    injection h with h
    simp [← h]
  | cons v rest ih =>
    intro aw ae r h
    cases hv : v i k with
    | error f =>
      simp only [Any.loop, hv] at h
      exact Except.noConfusion h
    | ok o =>
      obtain ⟨ws, es⟩ := o
      by_cases hpass : ws = [] ∧ es = []
      · obtain ⟨rfl, rfl⟩ := hpass
        left
        simp only [Any.loop, hv] at h
        injection h with h
        exact ⟨⟨v, List.mem_cons_self _ _, hv⟩, h.symm⟩
      · have hcond : (ws.length == 0 && es.length == 0) = false := by
          cases ws <;> cases es <;> simp_all
        simp only [Any.loop, hv, hcond, Bool.false_eq_true, if_false] at h
        rcases ih _ _ r h with ⟨⟨u, hu, hup⟩, hr⟩ | ⟨hall, hr⟩
        · exact Or.inl ⟨⟨u, List.mem_cons_of_mem _ hu, hup⟩, hr⟩
        · right
          refine ⟨?_, ?_⟩
          · intro u hu
            rcases List.mem_cons.1 hu with rfl | hu
            · refine ⟨ws, es, hv, ?_⟩
              by_cases hw : ws = []
              · exact Or.inr (fun he => hpass ⟨hw, he⟩)
              · exact Or.inl hw
            · exact hall u hu
          · rw [hr]
            simp [hv, warningsOf, errorsOf, List.append_assoc]

/-- The reports of a non-empty list of validators that all report something
are not empty. -/
theorem reports_ne_nil (i : Value) (k : String) (V : List SchemaValidateFunc) (hV : V ≠ [])
    (hall : ∀ v ∈ V, ∃ ws es, v i k = .ok (ws, es) ∧ (ws ≠ [] ∨ es ≠ [])) :
    (([] : List String) ++ (V.map fun v => warningsOf (v i k)).flatten,
      ([] : List GoError) ++ (V.map fun v => errorsOf (v i k)).flatten) ≠ ([], []) := by
  cases V with
  | nil => exact absurd rfl hV
  | cons v rest =>
    obtain ⟨ws, es, hv, hne⟩ := hall v (List.mem_cons_self _ _)
    intro h
    injection h with h1 h2
    simp only [List.nil_append, List.map_cons, List.flatten_cons, hv, warningsOf, errorsOf,
      List.append_eq_nil] at h1 h2
    rcases hne with hw | he
    · exact hw h1.1
    · exact he h2.1

/-- C17: when `Any V` returns an outcome on `(i, k)`, that is when no
validator that runs faults, the outcome is empty exactly when `V` is empty or
some validator of `V` returns the empty outcome; and for a non-empty `V` the
outcome is not empty exactly when every validator of `V` reports at least one
warning or error. -/
theorem Any_pass_iff (V : List SchemaValidateFunc) (i : Value) (k : String)
    (r : List String × List GoError) (h : Any V i k = .ok r) :
    (r = ([], []) ↔ V = [] ∨ ∃ v ∈ V, v i k = .ok ([], []))
      ∧ (V ≠ [] →
          (r ≠ ([], []) ↔
            ∀ v ∈ V, ∃ ws es, v i k = .ok (ws, es) ∧ (ws ≠ [] ∨ es ≠ []))) := by
  have hno : (∀ v ∈ V, ∃ ws es, v i k = .ok (ws, es) ∧ (ws ≠ [] ∨ es ≠ [])) →
      ¬ ∃ v ∈ V, v i k = .ok ([], []) := by
    rintro hall ⟨v, hv, hp⟩
    obtain ⟨ws, es, hok, hne⟩ := hall v hv
    rw [hp] at hok
    injection hok with hok
    injection hok with h1 h2
    rcases hne with hw | he
    · exact hw h1.symm
    · exact he h2.symm
  rcases Any.loop_ok_inv i k V [] [] r h with ⟨hex, hr⟩ | ⟨hall, hr⟩
  · refine ⟨⟨fun _ => Or.inr hex, fun _ => hr⟩, fun _ => ⟨fun hne => absurd hr hne, ?_⟩⟩
    intro hall
    exact absurd hex (hno hall)
  · constructor
    · constructor
      · intro hre
        by_cases hV : V = []
        · exact Or.inl hV
        · exact absurd (hr ▸ hre) (reports_ne_nil i k V hV hall)
      · rintro (hV | hex)
        · subst hV
          simpa using hr
        · exact absurd hex (hno hall)
    · intro hV
      exact ⟨fun _ => hall, fun _ => hr ▸ reports_ne_nil i k V hV hall⟩

/-- A witness of `Any_pass_iff`: `NoZeroValues` passes on a non-empty string
after a validator that reported. -/
theorem Any_pass_iff_witness :
    Any [deprecated, NoZeroValues] (.string "x") "name" = .ok ([], [])
      ∧ ((([], []) : List String × List GoError) = ([], []) ↔
          [deprecated, NoZeroValues] = []
            ∨ ∃ v ∈ [deprecated, NoZeroValues], v (.string "x") "name" = .ok ([], [])) :=
  ⟨by decide,
   (Any_pass_iff [deprecated, NoZeroValues] (.string "x") "name" ([], []) (by decide)).1⟩

/-- C12, as amended: for a non-empty `V`, when `Any V` returns no error on
`(i, k)` some validator of `V` returns no error there; and when a validator
of `V` returns no error and no warning, none before it faulting, `Any V`
returns no error. -/
theorem Any_zero_errors (V : List SchemaValidateFunc) (i : Value) (k : String)
    (hV : V ≠ []) :
    (∀ ws, Any V i k = .ok (ws, []) → ∃ v ∈ V, ∃ ws1, v i k = .ok (ws1, []))
      ∧ (∀ pre v post, V = pre ++ v :: post → (∀ u ∈ pre, ∃ r, u i k = .ok r) →
          v i k = .ok ([], []) → ∃ ws, Any V i k = .ok (ws, [])) := by
  constructor
  · intro ws h
    rcases Any.loop_ok_inv i k V [] [] (ws, []) h with ⟨⟨v, hv, hp⟩, _⟩ | ⟨hall, hr⟩
    · exact ⟨v, hv, [], hp⟩
    · cases V with
      | nil => exact absurd rfl hV
      | cons v rest =>
        obtain ⟨ws1, es1, hv, _⟩ := hall v (List.mem_cons_self _ _)
        injection hr with _ h2
        simp only [List.nil_append, List.map_cons, List.flatten_cons, hv, errorsOf] at h2
        have hes : es1 = [] := (List.append_eq_nil.1 h2.symm).1
        exact ⟨v, List.mem_cons_self _ _, ws1, by rw [hv, hes]⟩
  · intro pre v post hsplit hpre hv
    subst hsplit
    exact ⟨[], Any.loop_pass i k v post hv pre [] [] hpre⟩

/-- A witness of `Any_zero_errors`: two validators that report only
warnings, and a passing validator after one that reports an error. -/
theorem Any_zero_errors_witness :
    ([warnOnly, warnOnly] ≠ []
        ∧ Any [warnOnly, warnOnly] (.int 1) "name"
            = .ok (["name is deprecated", "name is deprecated"], [])
        ∧ ∃ v ∈ [warnOnly, warnOnly], ∃ ws1, v (.int 1) "name" = .ok (ws1, []))
      ∧ ([errorOnly, pass] ≠ [] ∧ pass (.int 1) "name" = .ok ([], [])
        ∧ ∃ ws, Any [errorOnly, pass] (.int 1) "name" = .ok (ws, [])) :=
  ⟨⟨by simp, by decide,
    (Any_zero_errors [warnOnly, warnOnly] (.int 1) "name" (by simp)).1
      ["name is deprecated", "name is deprecated"] (by decide)⟩,
   ⟨by simp, rfl,
    (Any_zero_errors [errorOnly, pass] (.int 1) "name" (by simp)).2 [errorOnly] pass [] rfl
      (by
        intro u hu
        rw [List.mem_singleton.1 hu]
        exact ⟨_, rfl⟩) rfl⟩⟩

/-- C12, the claim as stated fails: the first validator returns no error,
yet `Any` returns the error of the second, because the warning of the first
keeps it from passing. -/
theorem Any_zero_errors_counterexample :
    (∃ v ∈ [warnOnly, errorOnly], ∃ ws, v (.string "x") "name" = .ok (ws, []))
      ∧ Any [warnOnly, errorOnly] (.string "x") "name"
          = .ok (["name is deprecated"], [Errorf "name is not supported"])
      ∧ ¬ ∃ ws, Any [warnOnly, errorOnly] (.string "x") "name" = .ok (ws, []) := by
  refine ⟨⟨warnOnly, List.mem_cons_self _ _, _, rfl⟩, by decide, ?_⟩
  rintro ⟨ws, h⟩
  have h2 : Any [warnOnly, errorOnly] (.string "x") "name"
      = .ok (["name is deprecated"], [Errorf "name is not supported"]) := by decide
  rw [h2] at h
  injection h with h
  injection h with _ h3
  cases h3

/-! ## `All` and concatenation -/

/-- The loop of `All` over `V ++ W` is the loop over `V` followed by the loop
over `W` from what the first accumulated. -/
theorem All.loop_append (i : Value) (k : String) (V W : List SchemaValidateFunc) :
    ∀ (aw : List String) (ae : List GoError),
      All.loop i k (V ++ W) aw ae =
        match All.loop i k V aw ae with
        | .error f => .error f
        | .ok (w, e) => All.loop i k W w e := by
  induction V with
  | nil => intro aw ae; simp [All.loop]
  | cons v rest ih =>
    intro aw ae
    cases hv : v i k with
    | error f => simp [All.loop, hv]
    | ok r =>
      obtain ⟨ws, es⟩ := r
      simp [All.loop, hv, ih]

/-- The loop of `All` from any accumulators is the loop from empty
accumulators with the accumulators put in front. -/
theorem All.loop_acc (i : Value) (k : String) (W : List SchemaValidateFunc) :
    ∀ (aw : List String) (ae : List GoError),
      All.loop i k W aw ae =
        match All.loop i k W [] [] with
        | .error f => .error f
        | .ok (w, e) => .ok (aw ++ w, ae ++ e) := by
  induction W with
  | nil => intro aw ae; simp [All.loop]
  | cons v rest ih =>
    intro aw ae
    cases hv : v i k with
    | error f => simp [All.loop, hv]
    | ok r =>
      obtain ⟨ws, es⟩ := r
      simp only [All.loop, hv]
      rw [ih (aw ++ ws) (ae ++ es), ih ([] ++ ws) ([] ++ es)]
      cases All.loop i k rest [] [] with
      | error f => rfl
      | ok o => simp [List.append_assoc]

/-- The value of `All` on `V ++ W` from the values of `All V` and `All W`. -/
theorem All_append_eq (V W : List SchemaValidateFunc) (i : Value) (k : String) :
    All (V ++ W) i k =
      match All V i k with
      | .error f => .error f
      | .ok (wv, ev) =>
        match All W i k with
        | .error f => .error f
        | .ok (ww, ew) => .ok (wv ++ ww, ev ++ ew) := by
  simp only [All]
  rw [All.loop_append]
  cases All.loop i k V [] [] with
  | error f => rfl
  | ok o =>
    obtain ⟨wv, ev⟩ := o
    simp only
    rw [All.loop_acc]

/-- C18: the warnings and the errors of `All (V ++ W)` are those of `All V`
followed by those of `All W`; a fault of `All V`, or else of `All W`, is the
fault of `All (V ++ W)`; `All` of the two validators `All V` and `All W`
returns what `All (V ++ W)` returns; and `All` of one validator returns what
the validator returns. -/
theorem All_append (V W : List SchemaValidateFunc) (i : Value) (k : String) :
    (∀ wv ev ww ew, All V i k = .ok (wv, ev) → All W i k = .ok (ww, ew) →
        All (V ++ W) i k = .ok (wv ++ ww, ev ++ ew))
      ∧ (∀ f, All V i k = .error f → All (V ++ W) i k = .error f)
      ∧ (∀ r f, All V i k = .ok r → All W i k = .error f → All (V ++ W) i k = .error f)
      ∧ All [All V, All W] i k = All (V ++ W) i k
      ∧ (∀ v : SchemaValidateFunc, All [v] i k = v i k) := by
  refine ⟨?_, ?_, ?_, ?_, ?_⟩
  · intro wv ev ww ew hV hW
    rw [All_append_eq, hV, hW]
  · intro f hV
    rw [All_append_eq, hV]
  · intro r f hV hW
    rw [All_append_eq, hV, hW]
  · rw [All_append_eq]
    simp only [All, All.loop]
    cases All.loop i k V [] [] with
    | error f => rfl
    | ok o =>
      obtain ⟨wv, ev⟩ := o
      cases All.loop i k W [] [] with
      | error f => rfl
      | ok o2 => simp
  · intro v
    simp only [All, All.loop]
    cases v i k with
    | error f => rfl
    | ok o => simp

/-- A witness of `All_append`: a list of one validator followed by a list of
two, on the empty string, and a fault in the second list. -/
theorem All_append_witness :
    (All [deprecated] (.string "") "name"
          = .ok (["name is deprecated"], [Errorf "name is not supported"])
        ∧ All [NoZeroValues, warnOnly] (.string "") "name"
          = .ok (["name is deprecated"], [Errorf "name must not be empty, got "])
        ∧ All ([deprecated] ++ [NoZeroValues, warnOnly]) (.string "") "name"
          = .ok (["name is deprecated"] ++ ["name is deprecated"],
              [Errorf "name is not supported"] ++ [Errorf "name must not be empty, got "]))
      ∧ (All [NoZeroValues] (.bool false) "name"
          = .error (.panicked "can't use NoZeroValues with bool attribute name")
        ∧ All ([NoZeroValues] ++ [deprecated]) (.bool false) "name"
          = .error (.panicked "can't use NoZeroValues with bool attribute name"))
      ∧ (All [deprecated] (.bool false) "name"
          = .ok (["name is deprecated"], [Errorf "name is not supported"])
        ∧ All ([deprecated] ++ [NoZeroValues]) (.bool false) "name"
          = .error (.panicked "can't use NoZeroValues with bool attribute name")) :=
  ⟨⟨by decide, by decide,
    (All_append [deprecated] [NoZeroValues, warnOnly] (.string "") "name").1
      ["name is deprecated"] [Errorf "name is not supported"]
      ["name is deprecated"] [Errorf "name must not be empty, got "] (by decide) (by decide)⟩,
   ⟨by decide,
    (All_append [NoZeroValues] [deprecated] (.bool false) "name").2.1
      (.panicked "can't use NoZeroValues with bool attribute name") (by decide)⟩,
   ⟨by decide,
    (All_append [deprecated] [NoZeroValues] (.bool false) "name").2.2.1
      (["name is deprecated"], [Errorf "name is not supported"])
      (.panicked "can't use NoZeroValues with bool attribute name") (by decide) (by decide)⟩⟩

/-! ## Messages of `NoZeroValues` -/

/-- C16: for every key `k`, the one error of `NoZeroValues` on the empty
string has the text `k` followed by ` must not be empty, got `, and the one
error on the integer 0 has the text `k` followed by ` must not be zero, got
0`; the first text holds `must not be empty` and the second `must not be
zero`. -/
theorem NoZeroValues_messages (k : String) :
    NoZeroValues (.string "") k = .ok ([], [Errorf (k ++ " must not be empty, got ")])
      ∧ NoZeroValues (.int 0) k = .ok ([], [Errorf (k ++ " must not be zero, got 0")])
      ∧ (∃ pre post : String,
          (Errorf (k ++ " must not be empty, got ")).Error
            = .ok (pre ++ "must not be empty" ++ post))
      ∧ (∃ pre post : String,
          (Errorf (k ++ " must not be zero, got 0")).Error
            = .ok (pre ++ "must not be zero" ++ post)) := by
  refine ⟨?_, ?_, ⟨k ++ " ", ", got ", ?_⟩, ⟨k ++ " ", ", got 0", ?_⟩⟩
  · rw [NoZeroValues_string, if_pos rfl, String.append_empty]
  · rw [NoZeroValues_int, if_pos rfl, String.append_assoc]
    rfl
  · simp only [Errorf, GoError.Error, String.append_assoc]
    rfl
  · simp only [Errorf, GoError.Error, String.append_assoc]
    rfl

/-! ## `NoZeroValues` on values that are not zero -/

/-- C20, as amended: for a value of a type whose kind is not string, int or
float64, `NoZeroValues` returns the empty outcome when the type is comparable
and the value is not its zero value, as on the boolean `true`, on a non-zero
`int64` or on a non-nil pointer; it faults in the comparison when the type is
not comparable, whatever the value; and its explicit panic is raised only on
the zero value. -/
theorem NoZeroValues_unsupported_nonzero (i : Value) (t : GoType) (k : String)
    (ht : TypeOf i = some t)
    (hk : t.Kind ≠ .String ∧ t.Kind ≠ .Int ∧ t.Kind ≠ .Float64) :
    (t.comparable = true → i ≠ Zero t → NoZeroValues i k = .ok ([], []))
      ∧ (t.comparable = false → ∃ msg, NoZeroValues i k = .error (.runtimeError msg))
      ∧ (∀ msg, NoZeroValues i k = .error (.panicked msg) → i = Zero t)
      ∧ NoZeroValues (.bool true) k = .ok ([], []) := by
  obtain ⟨h1, h2, h3⟩ := hk
  cases i with
  | string s => cases ht; exact absurd rfl h1
  | int n => cases ht; exact absurd rfl h2
  | float64 f => cases ht; exact absurd rfl h3
  | bool b =>
    cases ht
    cases b with
    | false =>
      exact ⟨fun _ hne => absurd rfl hne, fun hc => Bool.noConfusion hc, fun _ _ => rfl, rfl⟩
    | true =>
      exact ⟨fun _ _ => rfl, fun hc => Bool.noConfusion hc,
        fun msg h => Except.noConfusion h, rfl⟩
  | slice xs =>
    cases ht
    refine ⟨fun hc => Bool.noConfusion hc, fun _ => ⟨_, rfl⟩, ?_, rfl⟩
    intro msg h
    simp [NoZeroValues, TypeOf, Zero, interfaceEq] at h
  | map kvs =>
    cases ht
    refine ⟨fun hc => Bool.noConfusion hc, fun _ => ⟨_, rfl⟩, ?_, rfl⟩
    intro msg h
    simp [NoZeroValues, TypeOf, Zero, interfaceEq] at h
  | nil => cases ht
  | other u code =>
    cases ht
    refine ⟨?_, ?_, ?_, rfl⟩
    · intro hc hne
      have hc2 : u.comparable = true := hc
      have hcode : ¬ code = some 0 := fun h0 => hne (by rw [h0]; rfl)
      rw [NoZeroValues_other, if_pos hc2, if_neg hcode]
    · intro hc
      have hc2 : ¬ u.comparable = true := by
        intro h
        have : GoType.comparable (.other u) = true := h
        rw [hc] at this
        exact Bool.noConfusion this
      rw [NoZeroValues_other, if_neg hc2]
      exact ⟨_, rfl⟩
    · intro msg h
      rw [NoZeroValues_other] at h
      split at h
      · split at h
        · rename_i h0
          rw [h0]
          rfl
        · exact Except.noConfusion h
      · injection h with h
        exact Fault.noConfusion h

/-- A witness of `NoZeroValues_unsupported_nonzero`: the `int64` 5, a non-nil
pointer, a `float32` NaN and the boolean `true` pass unnoticed; a slice of one
string faults; the nil pointer is the zero value that panics. -/
theorem NoZeroValues_unsupported_nonzero_witness :
    (TypeOf (.other typeInt64 (some 5)) = some (.other typeInt64)
        ∧ (GoType.other typeInt64).comparable = true
        ∧ Value.other typeInt64 (some 5) ≠ Zero (.other typeInt64)
        ∧ NoZeroValues (.other typeInt64 (some 5)) "name" = .ok ([], []))
      ∧ NoZeroValues (.other typeSetPointer (some 1)) "name" = .ok ([], [])
      ∧ NoZeroValues (.other typeFloat32 none) "name" = .ok ([], [])
      ∧ (Value.bool true ≠ Zero .bool ∧ NoZeroValues (.bool true) "name" = .ok ([], []))
      ∧ ((GoType.other typeStringSlice).comparable = false
        ∧ ∃ msg, NoZeroValues (.other typeStringSlice (some 1)) "name"
            = .error (.runtimeError msg))
      ∧ (NoZeroValues (.other typeSetPointer (some 0)) "name"
            = .error (.panicked "can't use NoZeroValues with *schema.Set attribute name")
        ∧ Value.other typeSetPointer (some 0) = Zero (.other typeSetPointer)) :=
  have h5 : Value.other typeInt64 (some 5) ≠ Zero (.other typeInt64) := fun h => by
    simp [Zero] at h
  have h1 : Value.other typeSetPointer (some 1) ≠ Zero (.other typeSetPointer) := fun h => by
    simp [Zero] at h
  have hnan : Value.other typeFloat32 none ≠ Zero (.other typeFloat32) := fun h => by
    simp [Zero] at h
  have hb : Value.bool true ≠ Zero .bool := fun h => by
    simp [Zero] at h
  ⟨⟨rfl, rfl, h5,
    (NoZeroValues_unsupported_nonzero (.other typeInt64 (some 5)) (.other typeInt64) "name"
      rfl (by decide)).1 rfl h5⟩,
   (NoZeroValues_unsupported_nonzero (.other typeSetPointer (some 1)) (.other typeSetPointer)
      "name" rfl (by decide)).1 rfl h1,
   (NoZeroValues_unsupported_nonzero (.other typeFloat32 none) (.other typeFloat32) "name"
      rfl (by decide)).1 rfl hnan,
   ⟨hb, (NoZeroValues_unsupported_nonzero (.bool true) .bool "name" rfl (by decide)).1 rfl hb⟩,
   ⟨rfl,
    (NoZeroValues_unsupported_nonzero (.other typeStringSlice (some 1))
      (.other typeStringSlice) "name" rfl (by decide)).2.1 rfl⟩,
   ⟨by decide,
    (NoZeroValues_unsupported_nonzero (.other typeSetPointer (some 0))
      (.other typeSetPointer) "name" rfl (by decide)).2.2.1
      "can't use NoZeroValues with *schema.Set attribute name" (by decide)⟩⟩

/-- C20, the claim as stated fails: a slice of one element is a non-zero
value of a kind other than string, int and float64, and `NoZeroValues` faults
on it, in the comparison with the nil slice. -/
theorem NoZeroValues_nonzero_slice_counterexample :
    TypeOf (.slice (some [.int 1])) = some .sliceOfInterface
      ∧ (GoType.sliceOfInterface.Kind ≠ .String ∧ GoType.sliceOfInterface.Kind ≠ .Int
        ∧ GoType.sliceOfInterface.Kind ≠ .Float64)
      ∧ Value.slice (some [.int 1]) ≠ Zero .sliceOfInterface
      ∧ NoZeroValues (.slice (some [.int 1])) "name" =
          .error (.runtimeError
            "runtime error: comparing uncomparable type []interface \x7b\x7d") := by
  refine ⟨rfl, by decide, ?_, rfl⟩
  intro h
  simp [Zero] at h

end Validation

namespace Providers

/-! ## `Schema` -/

/-- C13, as amended: a `Schema` built from a version and a block has that
version and that block, as with version 2; its two fields are exported, and
an assignment to one of them gives it the assigned value and leaves the
other field as it was. -/
theorem Schema_read_back {ConfigschemaBlock : Type} (v : Int64)
    (b : Option ConfigschemaBlock) :
    (Schema.mk v b).Version = v
      ∧ (Schema.mk v b).Block = b
      ∧ (Schema.mk Example.versionTwo b).Version.val = 2
      ∧ (Schema.mk Example.versionTwo b).Block = b
      ∧ (∀ (s : Schema ConfigschemaBlock) (w : Int64),
          (s.assignVersion w).Version = w ∧ (s.assignVersion w).Block = s.Block)
      ∧ (∀ (s : Schema ConfigschemaBlock) (c : Option ConfigschemaBlock),
          (s.assignBlock c).Block = c ∧ (s.assignBlock c).Version = s.Version) :=
  ⟨rfl, rfl, rfl, rfl, fun _ _ => ⟨rfl, rfl⟩, fun _ _ => ⟨rfl, rfl⟩⟩

/-- C13, the claim as stated fails: on the pair of version 2 and a block, the
assignment of 3 to the field `Version` is an operation that changes the
version and not the block. -/
theorem Schema_assign_counterexample :
    (Schema.mk Example.versionTwo (some ())).Version.val = 2
      ∧ ((Schema.mk Example.versionTwo (some ())).assignVersion Example.versionThree).Version.val
          = 3
      ∧ ((Schema.mk Example.versionTwo (some ())).assignVersion Example.versionThree).Block
          = (Schema.mk Example.versionTwo (some ())).Block :=
  ⟨rfl, rfl, rfl⟩

/-- C14, as amended: the version of a `Schema` is a signed 64-bit integer,
from `-2^63` up to `2^63 - 1`, and each such integer, a negative one also, is
the version of a `Schema` with any block. -/
theorem Schema_version_range {ConfigschemaBlock : Type} :
    (∀ s : Schema ConfigschemaBlock, -2 ^ 63 ≤ s.Version.val ∧ s.Version.val < 2 ^ 63)
      ∧ (∀ (n : Int) (b : Option ConfigschemaBlock), -2 ^ 63 ≤ n → n < 2 ^ 63 →
          ∃ s : Schema ConfigschemaBlock, s.Version.val = n ∧ s.Block = b) :=
  ⟨fun s => s.Version.property, fun n b h1 h2 => ⟨⟨⟨n, h1, h2⟩, b⟩, rfl, rfl⟩⟩

/-- A witness of `Schema_version_range`: the version -1 with the nil block. -/
theorem Schema_version_range_witness :
    ((-2 ^ 63 : Int) ≤ -1 ∧ (-1 : Int) < 2 ^ 63)
      ∧ ∃ s : Schema Unit, s.Version.val = -1 ∧ s.Block = none :=
  ⟨⟨by norm_num, by norm_num⟩,
   (Schema_version_range).2 (-1) none (by norm_num) (by norm_num)⟩

/-- C14, the claim as stated fails: the `Schema` with version -1 and the nil
block is a value of the type, and its version is below 0. -/
theorem Schema_version_counterexample :
    (Schema.mk Example.versionMinusOne (none : Option Unit)).Version.val = -1
      ∧ ¬ 0 ≤ (Schema.mk Example.versionMinusOne (none : Option Unit)).Version.val := by
  refine ⟨rfl, ?_⟩
  show ¬ (0 : Int) ≤ -1
  decide

end Providers
